import Mathlib

/-!
# Verification of the circuit document integrity subsystem

A shallow embedding of the core of the repository:

* `src/circuit/validator.py` — `CircuitValidator` (schema step skipped, as the
  package ships no `schema.json` next to the module, so the default run always
  degrades to a warning and proceeds to semantic validation);
* `src/circuit/diff.py` — `CircuitDiff`;
* `src/circuit/persistence.py` — `CircuitPersistence` together with a model of
  Python's `json.dump(indent=2, ensure_ascii=False)` / `json.load` pair.

Python dictionaries are embedded as association lists with Python's
insertion-order/last-assignment-wins semantics (`pyUpsert` / `pyDictBy`),
JSON numbers are embedded as rationals (for the validator) and integers (for
the serializer), and Python truthiness is made explicit (`PValue.truthy`).
-/

/-- A Python value as it occurs in a circuit document field: a number
(`int`/`float`, embedded as a rational), a string, or a boolean.  Python's
`bool` is a subclass of `int`, which `PValue.isNumber` reflects. -/
inductive PValue where
  | num (q : ℚ)
  | str (s : String)
  | boolean (b : Bool)
  deriving DecidableEq, Repr

/-- Python truthiness of a value (`if not value: ...`). -/
def PValue.truthy : PValue → Bool
  | .num q => q != 0
  | .str s => s ≠ ""
  | .boolean b => b

/-- `isinstance(v, (int, float))`; Python booleans are instances of `int`. -/
def PValue.isNumber : PValue → Bool
  | .num _ => true
  | .str _ => false
  | .boolean _ => true

/-- The numeric content of a value (`True` counts as 1, `False` as 0). -/
def PValue.numVal : PValue → ℚ
  | .num q => q
  | .str _ => 0
  | .boolean b => if b then 1 else 0

/-- Rendering of a value inside an f-string.  We only need fidelity for
integers, the sole numeric shape exercised by the concrete scenarios. -/
def PValue.render : PValue → String
  | .num q => if q.den = 1 then toString q.num else toString q
  | .str s => s
  | .boolean b => if b then "True" else "False"

/-- Python truthiness of the result of a `.get` (absence is `None`, falsy). -/
def optTruthy : Option PValue → Bool
  | none => false
  | some v => v.truthy

/-- `pat in s` on Python strings: `pat` occurs as a contiguous substring. -/
def containsStr (s pat : String) : Bool :=
  decide (List.IsInfix pat.toList s.toList)

/-- `d.get(k)` on an association-list embedding of a Python dict. -/
def pyGet (m : List (String × PValue)) (k : String) : Option PValue :=
  (m.find? (fun p => p.1 = k)).map (·.2)

/-- A pin descriptor (`pins` dict values): optional net label and position. -/
structure Pin where
  net : Option String
  x : Option PValue
  y : Option PValue
  deriving DecidableEq, Repr

/-- One `(component, pin)` entry of a net's `connections` list. -/
structure NetConn where
  component : String
  pin : String
  deriving DecidableEq, Repr

/-- A net: `id`, optional `name`, and its connection entries. -/
structure Net where
  id : String
  name : Option String
  connections : List NetConn
  deriving DecidableEq, Repr

/-- A legacy point-to-point connection: `from` / `to` endpoint strings. -/
structure LegacyConn where
  fromPt : String
  toPt : String
  deriving DecidableEq, Repr

/-- A component of the circuit document.  `ctype` embeds the `type` key; the
nine scalar fields are exactly those read by the validator and the diff. -/
structure Component where
  id : String
  ctype : Option String
  value : Option PValue
  package : Option PValue
  description : Option PValue
  tolerance : Option PValue
  power : Option PValue
  voltage : Option PValue
  color : Option PValue
  notes : Option PValue
  forwardVoltage : Option PValue
  params : List (String × PValue)
  pins : List (String × Pin)
  deriving DecidableEq, Repr

/-- The circuit document (the keys the integrity subsystem reads; a missing
`nets`/`connections` key and an empty list are indistinguishable to the code,
which accesses them as `.get(key, [])`). -/
structure Circuit where
  metadata : List (String × PValue)
  components : List Component
  nets : List Net
  connections : List LegacyConn
  deriving DecidableEq, Repr

/-- A component with every optional field absent, for concrete scenarios. -/
def bareComponent (i : String) (t : Option String) : Component :=
  ⟨i, t, none, none, none, none, none, none, none, none, none, [], []⟩

/-! ## Python dict embedding (insertion order, last assignment wins) -/

/-- `m[k] = v` on a Python dict: replace in place if the key is present,
append otherwise. -/
def pyUpsert (m : List (String × α)) (k : String) (v : α) : List (String × α) :=
  if m.any (fun p => p.1 = k) then
    m.map (fun p => if p.1 = k then (k, v) else p)
  else
    m ++ [(k, v)]

/-- `{f(x): x for x in l}` — the keyed-dict comprehension used by the diff. -/
def pyDictBy (f : α → String) (l : List α) : List (String × α) :=
  l.foldl (fun m c => pyUpsert m (f c) c) []

/-- Key lookup on a dict built by `pyUpsert` (keys are unique, so the first
match is the match). -/
def dictFind (m : List (String × α)) (k : String) : Option α :=
  (m.find? (fun p => p.1 = k)).map (·.2)

/-- `k in m` on a dict. -/
def dictMem (m : List (String × α)) (k : String) : Bool :=
  m.any (fun p => p.1 = k)

/-! ## `CircuitValidator` — semantic validation

Each phase returns its `(errors, warnings, info)` contributions in emission
order; `validateCircuit` concatenates them in the order the phases run. -/

/-- Findings of one validation phase, in emission order. -/
structure Findings where
  errors : List String
  warnings : List String
  info : List String
  deriving Repr

/-- The per-component loop of `_validate_resistor`: warnings only. -/
def resistorWarns (c : Component) : List String :=
  let cid := c.id
  let w1 :=
    if !optTruthy c.value && !optTruthy (pyGet c.params "resistance_ohm") then
      [s!"Resistor {cid} has no value specified"]
    else []
  let w2 :=
    if !optTruthy c.power && !optTruthy (pyGet c.params "power_rating_w") then
      [s!"Resistor {cid} has no power rating specified"]
    else []
  w1 ++ w2

/-- `_validate_capacitor`: warnings only. -/
def capacitorWarns (c : Component) : List String :=
  let cid := c.id
  let w1 :=
    if !optTruthy c.value && !optTruthy (pyGet c.params "capacitance_f") then
      [s!"Capacitor {cid} has no value specified"]
    else []
  let w2 :=
    if !optTruthy (pyGet c.params "voltage_rating_v") then
      [s!"Capacitor {cid} has no voltage rating specified"]
    else []
  w1 ++ w2

/-- `_validate_led`: warnings only. -/
def ledWarns (c : Component) : List String :=
  let cid := c.id
  let w1 :=
    if !optTruthy c.color && !optTruthy (pyGet c.params "color") then
      [s!"LED {cid} has no color specified"]
    else []
  let w2 :=
    if !optTruthy c.forwardVoltage && !optTruthy (pyGet c.params "forward_voltage_v") then
      [s!"LED {cid} has no forward voltage specified"]
    else []
  w1 ++ w2

/-- The error text for a negative resistance. -/
def msgNegResistance (cid rendered : String) : String :=
  s!"Component {cid} has negative resistance: {rendered}"

/-- The error text for a negative capacitance. -/
def msgNegCapacitance (cid rendered : String) : String :=
  s!"Component {cid} has negative capacitance: {rendered}"

/-- The warning text for a negative voltage rating. -/
def msgNegVoltageRating (cid : String) : String :=
  s!"Component {cid} has negative voltage rating"

/-- The warning text for a duplicate net name. -/
def msgDupNetName (nname : String) : String :=
  s!"Duplicate net name: {nname}"

/-- `comp.get('type')` is falsy: absent or the empty string. -/
def typeFalsy : Option String → Bool
  | none => true
  | some t => t = ""

/-- The loop body sequence of `_validate_components`, threading the set of
already-seen ids; produces `(errors, warnings)` in emission order. -/
def componentsLoop : List Component → List String → List String × List String
  | [], _ => ([], [])
  | c :: rest, seen =>
    let cid := c.id
    let dupErrs := if cid ∈ seen then [s!"Duplicate component ID: {cid}"] else []
    let seen' := if cid ∈ seen then seen else cid :: seen
    let typeErrs := if typeFalsy c.ctype then [s!"Component {cid} has no type specified"] else []
    let warns :=
      if c.ctype = some "resistor" then resistorWarns c
      else if c.ctype = some "capacitor" then capacitorWarns c
      else if c.ctype = some "led" then ledWarns c
      else []
    let restPair := componentsLoop rest seen'
    (dupErrs ++ typeErrs ++ restPair.1, warns ++ restPair.2)

/-- `_validate_components`. -/
def validateComponents (doc : Circuit) : Findings :=
  let n := doc.components.length
  if doc.components = [] then
    ⟨["No components defined in circuit"], [], ["Validating components..."]⟩
  else
    let (errs, warns) := componentsLoop doc.components []
    ⟨errs, warns, ["Validating components...", s!"✓ Found {n} components"]⟩

/-- `point.split('.')[0] if '.' in point else point`: in both branches this is
the maximal prefix free of `'.'`. -/
def beforeDot (s : String) : String :=
  ⟨s.toList.takeWhile (fun c => c ≠ '.')⟩

/-- `_validate_connections` (legacy format): errors only, plus info lines. -/
def validateConnections (doc : Circuit) : Findings :=
  if doc.connections = [] then ⟨[], [], []⟩
  else
    let ids := doc.components.map Component.id
    let n := doc.connections.length
    let errs := doc.connections.flatMap (fun conn =>
      let fromComp := beforeDot conn.fromPt
      let toComp := beforeDot conn.toPt
      (if fromComp ∉ ids ∧ fromComp ∉ ["VCC", "GND"] then
        [s!"Connection references unknown component: {fromComp}"] else []) ++
      (if toComp ∉ ids ∧ toComp ∉ ["VCC", "GND"] then
        [s!"Connection references unknown component: {toComp}"] else []))
    ⟨errs, [], ["Validating connections...", s!"✓ Found {n} connections"]⟩

/-- `net.get('name', net_id)`. -/
def netDisplayName (n : Net) : String :=
  n.name.getD n.id

/-- The per-net loop of `_validate_nets`, threading the set of seen names.
`componentPins` is the dict from component id to its declared pin names. -/
def netsLoop (componentPins : List (String × List String)) :
    List Net → List String → List String × List String
  | [], _ => ([], [])
  | net :: rest, seenNames =>
    let nid := net.id
    let nname := netDisplayName net
    let dupWarns := if nname ∈ seenNames then [msgDupNetName nname] else []
    let seen' := if nname ∈ seenNames then seenNames else nname :: seenNames
    let fewWarns :=
      if net.connections.length < 2 then [s!"Net {nid} has fewer than 2 connections"] else []
    let connErrs := net.connections.flatMap (fun conn =>
      let cid := conn.component
      let pin := conn.pin
      match dictFind componentPins cid with
      | none => [s!"Net {nid} references unknown component: {cid}"]
      | some pinNames =>
          if pin ∉ pinNames then
            [s!"Net {nid} references undeclared pin {pin} on component {cid}"]
          else [])
    let restPair := netsLoop componentPins rest seen'
    (connErrs ++ restPair.1, dupWarns ++ fewWarns ++ restPair.2)

/-- `_validate_nets`. -/
def validateNets (doc : Circuit) : Findings :=
  if doc.nets = [] then ⟨[], [], []⟩
  else
    let componentPins :=
      doc.components.foldl
        (fun m c => pyUpsert m c.id (c.pins.map Prod.fst)) []
    let n := doc.nets.length
    let (errs, warns) := netsLoop componentPins doc.nets []
    ⟨errs, warns, ["Validating nets...", s!"✓ Found {n} nets"]⟩

/-- `_validate_component_values`: negative-value sign checks.
`params.get(key, 0)` defaults to the number `0`. -/
def validateComponentValues (doc : Circuit) : Findings :=
  let errs := doc.components.flatMap (fun c =>
    let cid := c.id
    let resistance := (pyGet c.params "resistance_ohm").getD (.num 0)
    let capacitance := (pyGet c.params "capacitance_f").getD (.num 0)
    let rstr := resistance.render
    let cstr := capacitance.render
    if c.ctype = some "resistor" then
      if resistance.isNumber && decide (resistance.numVal < 0) then
        [msgNegResistance cid rstr]
      else []
    else if c.ctype = some "capacitor" then
      if capacitance.isNumber && decide (capacitance.numVal < 0) then
        [msgNegCapacitance cid cstr]
      else []
    else [])
  let warns := doc.components.flatMap (fun c =>
    let cid := c.id
    let voltageRating := (pyGet c.params "voltage_rating_v").getD (.num 0)
    if voltageRating.isNumber && decide (voltageRating.numVal < 0) then
      [msgNegVoltageRating cid]
    else [])
  ⟨errs, warns, ["Validating component values..."]⟩

/-- `_validate_pins`: advisory warnings about undeclared pins used by legacy
connections (its loop over `nets` is a `pass` in the source). -/
def validatePins (doc : Circuit) : Findings :=
  let declared := doc.components.flatMap (fun c =>
    c.pins.map (fun p => c.id ++ "." ++ p.1))
  let warns := doc.connections.flatMap (fun conn =>
    [conn.fromPt, conn.toPt].flatMap (fun point =>
      if ('.' ∈ point.toList) ∧ point ∉ ["VCC.positive", "GND"] then
        let compId := beforeDot point
        if point ∉ declared ∧ doc.components.any (fun c => c.id = compId) then
          [s!"Connection uses undeclared pin: {point}"]
        else []
      else []))
  ⟨[], warns, ["Validating pins and pads..."]⟩

/-- `CircuitValidator.validate()` run with the module's default schema path,
which does not exist in the shipped package: `_validate_schema` degrades to a
warning and contributes no error, so the semantic phases always run.
Returns `(is_valid, results)` with `is_valid = (errors == [])`. -/
def validateCircuit (doc : Circuit) : Bool × Findings :=
  let schema : Findings :=
    ⟨[], ["Schema file not found, skipping schema validation"],
      ["Validating against JSON schema..."]⟩
  let phases := [schema, validateComponents doc, validateConnections doc,
    validateNets doc, validateComponentValues doc, validatePins doc]
  let results : Findings :=
    ⟨phases.flatMap Findings.errors, phases.flatMap Findings.warnings,
      phases.flatMap Findings.info⟩
  (results.errors.isEmpty, results)

/-! ## `CircuitDiff` — structured changesets -/

/-- The heterogeneous payloads appearing in a `changes` dict entry. -/
inductive ChangeEntry where
  | typeField (o n : Option String)
  | field (o n : Option PValue)
  | param (o n : Option PValue)
  | pinsSwap (o n : List String)
  | pinNet (o n : Option String)
  | pinPos (o n : Option PValue × Option PValue)
  deriving DecidableEq, Repr

/-- One element of `components_modified`: the id and its `changes` dict. -/
structure ModifiedEntry where
  id : String
  changes : List (String × ChangeEntry)
  deriving DecidableEq, Repr

/-- Python `==` between two dicts: key-set equality plus per-key value
equality (order-insensitive). -/
def pyDictEq [DecidableEq α] (a b : List (String × α)) : Bool :=
  a.all (fun p => dictFind b p.1 = some p.2) && b.all (fun p => dictFind a p.1 = some p.2)

/-- Python `==` between two sets represented as lists (extensional). -/
def pySetEq [DecidableEq α] (a b : List α) : Bool :=
  a.all (fun x => decide (x ∈ b)) && b.all (fun x => decide (x ∈ a))

/-- One scalar-field comparison of `_compare_components`: reported when the
values differ and at least one side is not `None`. -/
def fieldChange (key : String) (o n : Option PValue) : List (String × ChangeEntry) :=
  if o ≠ n ∧ (o ≠ none ∨ n ≠ none) then [(key, .field o n)] else []

/-- `_compare_components`: the `changes` dict for a component present in both
documents, in emission order. -/
def compareComponents (oldc newc : Component) : List (String × ChangeEntry) :=
  let typeChange :=
    if oldc.ctype ≠ newc.ctype ∧ (oldc.ctype ≠ none ∨ newc.ctype ≠ none) then
      [("type", ChangeEntry.typeField oldc.ctype newc.ctype)]
    else []
  let scalarChanges :=
    typeChange ++
    fieldChange "value" oldc.value newc.value ++
    fieldChange "package" oldc.package newc.package ++
    fieldChange "description" oldc.description newc.description ++
    fieldChange "tolerance" oldc.tolerance newc.tolerance ++
    fieldChange "power" oldc.power newc.power ++
    fieldChange "voltage" oldc.voltage newc.voltage ++
    fieldChange "color" oldc.color newc.color ++
    fieldChange "notes" oldc.notes newc.notes
  let paramChanges :=
    if pyDictEq oldc.params newc.params then []
    else
      let allKeys := (oldc.params.map Prod.fst) ++
        ((newc.params.map Prod.fst).filter (fun k => k ∉ oldc.params.map Prod.fst))
      allKeys.flatMap (fun k =>
        let o := pyGet oldc.params k
        let n := pyGet newc.params k
        if o ≠ n then [(s!"params.{k}", ChangeEntry.param o n)] else [])
  let pinChanges :=
    if pyDictEq oldc.pins newc.pins then []
    else
      let oldPinIds := oldc.pins.map Prod.fst
      let newPinIds := newc.pins.map Prod.fst
      if ¬ (pySetEq oldPinIds newPinIds = true) then
        [("pins", ChangeEntry.pinsSwap oldPinIds newPinIds)]
      else
        oldPinIds.flatMap (fun pid =>
          match dictFind oldc.pins pid, dictFind newc.pins pid with
          | some oldPin, some newPin =>
            (if oldPin.net ≠ newPin.net then
              [(s!"pin.{pid}.net", ChangeEntry.pinNet oldPin.net newPin.net)]
            else []) ++
            (if (oldPin.x, oldPin.y) ≠ (newPin.x, newPin.y) then
              [(s!"pin.{pid}.position",
                ChangeEntry.pinPos (oldPin.x, oldPin.y) (newPin.x, newPin.y))]
            else [])
          | _, _ => [])
  scalarChanges ++ paramChanges ++ pinChanges

/-- The structured changeset returned by `compute_diff`. -/
structure DiffResult where
  componentsAdded : List Component
  componentsRemoved : List Component
  componentsModified : List ModifiedEntry
  netsChanged : List String
  metadataChanges : List (String × (Option PValue × Option PValue))
  deriving Repr

/-- `_diff_metadata`: `(old, new)` pairs over the union of metadata keys. -/
def diffMetadata (oldDoc newDoc : Circuit) : List (String × (Option PValue × Option PValue)) :=
  let oldKeys := oldDoc.metadata.map Prod.fst
  let allKeys := oldKeys ++ ((newDoc.metadata.map Prod.fst).filter (fun k => k ∉ oldKeys))
  allKeys.flatMap (fun k =>
    let o := pyGet oldDoc.metadata k
    let n := pyGet newDoc.metadata k
    if o ≠ n then [(k, (o, n))] else [])

/-- `_diff_components`: keyed dicts by id; added / removed / modified. -/
def diffComponents (oldDoc newDoc : Circuit) :
    List Component × List Component × List ModifiedEntry :=
  let oldComps := pyDictBy Component.id oldDoc.components
  let newComps := pyDictBy Component.id newDoc.components
  let added := (newComps.filter (fun p => !dictMem oldComps p.1)).map Prod.snd
  let removed := (oldComps.filter (fun p => !dictMem newComps p.1)).map Prod.snd
  let modified := (oldComps.filter (fun p => dictMem newComps p.1)).filterMap (fun p =>
    match dictFind newComps p.1 with
    | some newComp =>
        let changes := compareComponents p.2 newComp
        if changes = [] then none else some ⟨p.1, changes⟩
    | none => none)
  (added, removed, modified)

/-- `_normalize_connections`: the set of `(component, pin)` pairs. -/
def normalizeConnections (conns : List NetConn) : List (String × String) :=
  conns.map (fun c => (c.component, c.pin))

/-- `_diff_nets`: ids in the symmetric difference, then common ids whose
normalized connection sets differ. -/
def diffNets (oldDoc newDoc : Circuit) : List String :=
  let oldNets := pyDictBy Net.id oldDoc.nets
  let newNets := pyDictBy Net.id newDoc.nets
  let oldIds := oldNets.map Prod.fst
  let newIds := newNets.map Prod.fst
  let addedRemoved := (newIds.filter (fun k => k ∉ oldIds)) ++
    (oldIds.filter (fun k => k ∉ newIds))
  let modified := (oldNets.filter (fun p => dictMem newNets p.1)).filterMap (fun p =>
    match dictFind newNets p.1 with
    | some newNet =>
        if pySetEq (normalizeConnections p.2.connections)
            (normalizeConnections newNet.connections) then none
        else some p.1
    | none => none)
  addedRemoved ++ modified

/-- `CircuitDiff.compute_diff`. -/
def computeDiff (oldDoc newDoc : Circuit) : DiffResult :=
  let (added, removed, modified) := diffComponents oldDoc newDoc
  { componentsAdded := added
    componentsRemoved := removed
    componentsModified := modified
    netsChanged := diffNets oldDoc newDoc
    metadataChanges := diffMetadata oldDoc newDoc }

/-! ## JSON model — `json.dump(indent=2, ensure_ascii=False)` and `json.load`

Documents handed to `CircuitPersistence` are raw Python dicts; we embed them
as `JVal` trees.  JSON numbers are embedded as integers (all numeric data in
the concrete scenarios is integral; float round-tripping is a property of
IEEE-754 `repr` and is outside the embedding). -/

/-- A JSON value as Python represents it (`dict`s carry their insertion
order; keys of a Python dict are unique, see `goodKeys`). -/
inductive JVal where
  | null
  | boolean (b : Bool)
  | num (i : ℤ)
  | str (s : String)
  | arr (items : List JVal)
  | obj (entries : List (String × JVal))
  deriving Repr

mutual

/-- Every object node of the tree has pairwise-distinct keys — true of every
value obtained from a Python dict, which cannot hold a key twice. -/
def goodKeys : JVal → Bool
  | .null => true
  | .boolean _ => true
  | .num _ => true
  | .str _ => true
  | .arr items => goodKeysList items
  | .obj entries =>
      decide ((entries.map Prod.fst).Nodup) && goodKeysPairs entries

/-- `goodKeys` over the items of an array. -/
def goodKeysList : List JVal → Bool
  | [] => true
  | v :: vs => goodKeys v && goodKeysList vs

/-- `goodKeys` over the values of an object's entries. -/
def goodKeysPairs : List (String × JVal) → Bool
  | [] => true
  | (_, v) :: es => goodKeys v && goodKeysPairs es

end

/-- Lowercase hexadecimal digit, as `'%04x' % code` produces. -/
def hexDigitChar (n : Nat) : Char :=
  if n < 10 then Char.ofNat (48 + n) else Char.ofNat (87 + n)

/-- `json.encoder` escaping of one character (`ensure_ascii=False`): quote,
backslash and the named control escapes, `\u00XX` for other control
characters, everything else verbatim. -/
def escChar (c : Char) : List Char :=
  if c = '"' then ['\\', '"']
  else if c = '\\' then ['\\', '\\']
  else if c = '\x08' then ['\\', 'b']
  else if c = '\x0c' then ['\\', 'f']
  else if c = '\n' then ['\\', 'n']
  else if c = '\r' then ['\\', 'r']
  else if c = '\t' then ['\\', 't']
  else if c.toNat < 32 then
    ['\\', 'u', '0', '0', hexDigitChar (c.toNat / 16), hexDigitChar (c.toNat % 16)]
  else [c]

/-- Escape a whole string body. -/
def escString (s : List Char) : List Char :=
  s.flatMap escChar

/-- Decimal digits of a natural number, most significant first (`repr(n)`). -/
def serNat (n : Nat) : List Char :=
  if n < 10 then [Char.ofNat (48 + n)]
  else serNat (n / 10) ++ [Char.ofNat (48 + n % 10)]
  decreasing_by exact Nat.div_lt_self (by omega) (by omega)

/-- `repr(i)` for a Python int. -/
def serInt (i : ℤ) : List Char :=
  if i < 0 then '-' :: serNat i.natAbs else serNat i.natAbs

/-- The `indent=2` prefix at nesting depth `d`. -/
def ws2 (d : Nat) : List Char :=
  List.replicate (2 * d) ' '

mutual

/-- `json.dump(v, indent=2, ensure_ascii=False)` at nesting depth `d`. -/
def ser : JVal → Nat → List Char
  | .null, _ => ['n', 'u', 'l', 'l']
  | .boolean true, _ => ['t', 'r', 'u', 'e']
  | .boolean false, _ => ['f', 'a', 'l', 's', 'e']
  | .num i, _ => serInt i
  | .str s, _ => '"' :: (escString s.toList ++ ['"'])
  | .arr [], _ => ['[', ']']
  | .arr (v :: vs), d =>
      '[' :: '\n' :: (serArrItems (v :: vs) (d + 1) ++ '\n' :: (ws2 d ++ [']']))
  | .obj [], _ => ['{', '}']
  | .obj (e :: es), d =>
      '{' :: '\n' :: (serObjItems (e :: es) (d + 1) ++ '\n' :: (ws2 d ++ ['}']))

/-- The comma-and-newline separated items of a non-empty array. -/
def serArrItems : List JVal → Nat → List Char
  | [], _ => []
  | [v], d => ws2 d ++ ser v d
  | v :: v' :: vs, d =>
      ws2 d ++ ser v d ++ ',' :: '\n' :: serArrItems (v' :: vs) d

/-- The `"key": value` items of a non-empty object. -/
def serObjItems : List (String × JVal) → Nat → List Char
  | [], _ => []
  | [(k, v)], d =>
      ws2 d ++ '"' :: (escString k.toList ++ '"' :: ':' :: ' ' :: ser v d)
  | (k, v) :: e :: es, d =>
      ws2 d ++ '"' :: (escString k.toList ++ '"' :: ':' :: ' ' :: ser v d) ++
        ',' :: '\n' :: serObjItems (e :: es) d

end

/-- `json.dump` writes the serialization of the document, no trailing
newline. -/
def jsonDumps (v : JVal) : String :=
  ⟨ser v 0⟩

/-! ### The scanner (`json.load`) -/

/-- JSON whitespace. -/
def isWsChar (c : Char) : Bool :=
  c = ' ' || c = '\t' || c = '\n' || c = '\r'

/-- Skip leading whitespace. -/
def skipWs : List Char → List Char
  | [] => []
  | c :: rest => if isWsChar c then skipWs rest else c :: rest

/-- An ASCII decimal digit (the `[0-9]` of `NUMBER_RE`). -/
def isDigitChar (c : Char) : Bool :=
  48 ≤ c.toNat && c.toNat ≤ 57

/-- The numeric value of one hex digit, either case. -/
def hexVal (c : Char) : Option Nat :=
  if 48 ≤ c.toNat ∧ c.toNat ≤ 57 then some (c.toNat - 48)
  else if 97 ≤ c.toNat ∧ c.toNat ≤ 102 then some (c.toNat - 87)
  else if 65 ≤ c.toNat ∧ c.toNat ≤ 70 then some (c.toNat - 55)
  else none

/-- `py_scanstring` after the opening quote, in strict mode: returns the
decoded characters and the remainder after the closing quote. -/
def pString : List Char → Option (List Char × List Char)
  | [] => none
  | c :: rest =>
    if c = '"' then some ([], rest)
    else if c = '\\' then
      match rest with
      | [] => none
      | e :: rest2 =>
        if e = '"' then (pString rest2).map (fun p => ('"' :: p.1, p.2))
        else if e = '\\' then (pString rest2).map (fun p => ('\\' :: p.1, p.2))
        else if e = '/' then (pString rest2).map (fun p => ('/' :: p.1, p.2))
        else if e = 'b' then (pString rest2).map (fun p => ('\x08' :: p.1, p.2))
        else if e = 'f' then (pString rest2).map (fun p => ('\x0c' :: p.1, p.2))
        else if e = 'n' then (pString rest2).map (fun p => ('\n' :: p.1, p.2))
        else if e = 'r' then (pString rest2).map (fun p => ('\r' :: p.1, p.2))
        else if e = 't' then (pString rest2).map (fun p => ('\t' :: p.1, p.2))
        else if e = 'u' then
          match rest2 with
          | h1 :: h2 :: h3 :: h4 :: rest3 =>
            match hexVal h1, hexVal h2, hexVal h3, hexVal h4 with
            | some a, some b, some c2, some d2 =>
                (pString rest3).map (fun p =>
                  (Char.ofNat (((a * 16 + b) * 16 + c2) * 16 + d2) :: p.1, p.2))
            | _, _, _, _ => none
          | _ => none
        else none
    else if c.toNat < 32 then none
    else (pString rest).map (fun p => (c :: p.1, p.2))

/-- Value of a digit string, most significant first. -/
def digitsVal (ds : List Char) : Nat :=
  ds.foldl (fun a c => a * 10 + (c.toNat - 48)) 0

/-- The integer production of `NUMBER_RE`: optional sign, no leading zeros,
and no fractional/exponent part (the document model carries only ints). -/
def pNum (cs : List Char) : Option (ℤ × List Char) :=
  let signed := match cs with | c :: t => if c = '-' then (true, t) else (false, cs) | [] => (false, cs)
  let ds := signed.2.takeWhile isDigitChar
  let rest := signed.2.dropWhile isDigitChar
  if ds = [] then none
  else if 1 < ds.length ∧ ds.headD 'x' = '0' then none
  else
    match rest with
    | c :: _ =>
        if c = '.' ∨ c = 'e' ∨ c = 'E' then none
        else some (if signed.1 then -(digitsVal ds : ℤ) else (digitsVal ds : ℤ), rest)
    | [] => some (if signed.1 then -(digitsVal ds : ℤ) else (digitsVal ds : ℤ), rest)

/-- `dict(pairs)` — how the decoder turns the parsed key/value pairs into a
Python dict (last assignment wins). -/
def pyDictPairs (pairs : List (String × JVal)) : List (String × JVal) :=
  pairs.foldl (fun m p => pyUpsert m p.1 p.2) []

mutual

/-- One JSON value, whitespace already skipped.  `fuel` bounds the nesting
the scanner will enter; `jsonLoads` supplies enough for any input. -/
def pValGo : Nat → List Char → Option (JVal × List Char)
  | _, [] => none
  | fuel, c :: rest =>
    if c = 'n' then
      if ['u', 'l', 'l'].isPrefixOf rest then some (.null, rest.drop 3) else none
    else if c = 't' then
      if ['r', 'u', 'e'].isPrefixOf rest then some (.boolean true, rest.drop 3) else none
    else if c = 'f' then
      if ['a', 'l', 's', 'e'].isPrefixOf rest then some (.boolean false, rest.drop 4) else none
    else if c = '"' then
      (pString rest).map (fun p => (.str ⟨p.1⟩, p.2))
    else if c = '[' then
      pArr fuel rest
    else if c = '{' then
      pObj fuel rest
    else if c = '-' ∨ isDigitChar c then
      (pNum (c :: rest)).map (fun p => (.num p.1, p.2))
    else none
  termination_by fuel _cs => (fuel, 3)

/-- A JSON value: skip whitespace, then scan. -/
def pVal : Nat → List Char → Option (JVal × List Char)
  | 0, _ => none
  | fuel + 1, cs => pValGo fuel (skipWs cs)
  termination_by fuel _cs => (fuel, 0)

/-- An array body, after the `[`. -/
def pArr (fuel : Nat) (cs : List Char) : Option (JVal × List Char) :=
  match skipWs cs with
  | [] => none
  | c :: rest =>
    if c = ']' then some (.arr [], rest)
    else (pArrItems fuel cs).map (fun p => (.arr p.1, p.2))
  termination_by (fuel, 2)

/-- One-or-more comma-separated array items. -/
def pArrItems : Nat → List Char → Option (List JVal × List Char)
  | 0, _ => none
  | fuel + 1, cs =>
    match pVal (fuel + 1) cs with
    | none => none
    | some (v, r) =>
      match skipWs r with
      | [] => none
      | c :: r2 =>
        if c = ',' then (pArrItems fuel r2).map (fun p => (v :: p.1, p.2))
        else if c = ']' then some ([v], r2)
        else none
  termination_by fuel _cs => (fuel, 1)

/-- An object body, after the `{`. -/
def pObj (fuel : Nat) (cs : List Char) : Option (JVal × List Char) :=
  match skipWs cs with
  | [] => none
  | c :: rest =>
    if c = '}' then some (.obj [], rest)
    else (pObjItems fuel cs).map (fun p => (.obj (pyDictPairs p.1), p.2))
  termination_by (fuel, 2)

/-- One-or-more comma-separated `"key": value` members. -/
def pObjItems : Nat → List Char → Option (List (String × JVal) × List Char)
  | 0, _ => none
  | fuel + 1, cs =>
    match skipWs cs with
    | [] => none
    | c0 :: r0 =>
      if c0 = '"' then
        match pString r0 with
        | none => none
        | some (k, r1) =>
          match skipWs r1 with
          | [] => none
          | c1 :: r2 =>
            if c1 = ':' then
              match pVal (fuel + 1) r2 with
              | none => none
              | some (v, r3) =>
                match skipWs r3 with
                | [] => none
                | c2 :: r4 =>
                  if c2 = ',' then
                    (pObjItems fuel r4).map (fun p => ((⟨k⟩, v) :: p.1, p.2))
                  else if c2 = '}' then some ([(⟨k⟩, v)], r4)
                  else none
            else none
      else none
  termination_by fuel _cs => (fuel, 1)

end

/-- `json.load`: scan one value, then require only trailing whitespace. -/
def jsonLoads (s : String) : Option JVal :=
  match pVal (s.toList.length + 1) s.toList with
  | some (v, rest) => if skipWs rest = [] then some v else none
  | none => none

/-! ## `CircuitPersistence` — filesystem model

The filesystem is a finite map from paths to file contents.  `_atomic_write`
is modelled as the sequence *mkstemp → write+flush → rename*, with an
injectable failure at each step; the `except` handler's cleanup
(`temp_file.unlink(missing_ok=True)`) is applied on every failing run, and
`mkstemp` is assumed to create a fresh name (stated as a hypothesis where it
matters). -/

/-- A filesystem: association of paths to contents. -/
def FS := List (String × String)

/-- Read a file (`None` = the path does not exist). -/
def fsGet (fs : FS) (p : String) : Option String :=
  (List.find? (fun q => q.1 = p) fs).map (·.2)

/-- Create or overwrite a file. -/
def fsSet (fs : FS) (p c : String) : FS :=
  pyUpsert fs p c

/-- `unlink(missing_ok=True)`. -/
def fsDel (fs : FS) (p : String) : FS :=
  List.filter (fun q => ¬ q.1 = p) fs

/-- The sibling temporary file `mkstemp(dir=…, prefix=f".{name}.",
suffix=".tmp")` creates for a target path. -/
def tmpName (p : String) : String :=
  "." ++ p ++ ".tmp"

/-- `path.with_suffix(path.suffix + ".backup")` for the paths the repository
uses (an extension is always present, so the suffix is appended). -/
def backupName (p : String) : String :=
  p ++ ".backup"

/-- Which step of `_atomic_write` raises, if any.  `writeF` carries the
partial content that reached the temporary file before the failure. -/
inductive FailPoint where
  | ok
  | mkstempF
  | writeF (written : String)
  | renameF

/-- `_atomic_write(path, data)` under a failure injection.  Returns the
resulting filesystem and whether the write succeeded (`False` = it raised
`PersistenceError`). -/
def atomicWrite (fs : FS) (p content : String) (fp : FailPoint) : FS × Bool :=
  match fp with
  | .mkstempF =>
      -- mkstemp itself raised: nothing was created.
      (fs, false)
  | .writeF written =>
      -- temp file created, partially written, then the handler unlinks it.
      (fsDel (fsSet fs (tmpName p) written) (tmpName p), false)
  | .renameF =>
      -- temp file fully written and fsynced; rename raised; handler unlinks.
      (fsDel (fsSet fs (tmpName p) content) (tmpName p), false)
  | .ok =>
      -- rename atomically replaces the target and removes the temp name.
      (fsDel (fsSet (fsSet fs (tmpName p) content) p content) (tmpName p), true)

/-- `save_circuit(path, data, validate, create_backup)`: validate, back up an
existing target (copy failure is swallowed, so only success is modelled),
then write atomically. -/
def saveCircuit (fs : FS) (p : String) (data : JVal)
    (validatePred : Option (JVal → Bool)) (createBackup : Bool)
    (fp : FailPoint) : FS × Bool :=
  match validatePred with
  | some ok =>
      if ok data then
        let fs1 :=
          if createBackup ∧ (fsGet fs p).isSome then
            fsSet fs (backupName p) ((fsGet fs p).getD "")
          else fs
        atomicWrite fs1 p (jsonDumps data) fp
      else (fs, false)   -- DataIntegrityError before anything is touched
  | none =>
      let fs1 :=
        if createBackup ∧ (fsGet fs p).isSome then
          fsSet fs (backupName p) ((fsGet fs p).getD "")
        else fs
      atomicWrite fs1 p (jsonDumps data) fp

/-- `load_circuit(path)` with no caller validator and no I/O fault: read the
file and parse it (`None` = `PersistenceError`, not-found or invalid JSON). -/
def loadCircuit (fs : FS) (p : String) : Option JVal :=
  (fsGet fs p).bind (fun content => jsonLoads content)

/-! ## Concrete scenario documents -/

/-- `[{id:"R1", type:"resistor", params:{resistance_ohm: -10}}]`. -/
def negativeResistanceDoc : Circuit :=
  ⟨[], [{ bareComponent "R1" (some "resistor") with
            params := [("resistance_ohm", .num (-10))] }], [], []⟩

/-- A resistor whose `resistance_ohm` is exactly `0`. -/
def zeroResistanceDoc : Circuit :=
  ⟨[], [{ bareComponent "R0" (some "resistor") with
            params := [("resistance_ohm", .num 0)] }], [], []⟩

/-- Two components both with id `"R1"`. -/
def duplicateIdDoc : Circuit :=
  ⟨[], [bareComponent "R1" (some "resistor"),
        bareComponent "R1" (some "resistor")], [], []⟩

/-- The first of two nets sharing the id `"NET1"`. -/
def net1A : Net := ⟨"NET1", none, [⟨"R1", "1"⟩, ⟨"R2", "1"⟩]⟩

/-- The second of two nets sharing the id `"NET1"`. -/
def net1B : Net := ⟨"NET1", none, [⟨"R1", "2"⟩, ⟨"R2", "2"⟩]⟩

/-- Two nets both with id `"NET1"` (and no `name` key), wired to declared
pins of existing components, so that the duplicate is the only finding of
interest. -/
def duplicateNetIdDoc : Circuit :=
  ⟨[],
   [{ bareComponent "R1" (some "resistor") with
        pins := [("1", ⟨none, none, none⟩), ("2", ⟨none, none, none⟩)] },
    { bareComponent "R2" (some "resistor") with
        pins := [("1", ⟨none, none, none⟩), ("2", ⟨none, none, none⟩)] }],
   [net1A, net1B],
   []⟩

/-! ## C8 — validity is exactly emptiness of the error list -/

/-- C8: for every input document, `validate` returns `(is_valid, results)`
with `is_valid` true iff `results['errors']` is empty; the warnings and info
lists have no influence on `is_valid`. -/
theorem isValid_iff_errors_empty (doc : Circuit) :
    (validateCircuit doc).1 = true ↔ (validateCircuit doc).2.errors = [] := by
  simp [validateCircuit, List.isEmpty_iff]

/-! ## C9 — duplicate component id scenario -/

/-- C9: a document with two components both carrying id `"R1"` produces
exactly one error, and that error mentions both `"Duplicate"` and `"R1"`. -/
theorem duplicate_id_scenario :
    (validateCircuit duplicateIdDoc).2.errors.length = 1 ∧
    (validateCircuit duplicateIdDoc).2.errors.all
      (fun e => containsStr e "Duplicate" && containsStr e "R1") = true := by
  decide

/-! ## C1 — negative resistance scenario -/

/-- C1 (counterexample): on `[{id:"R1", type:"resistor",
params:{resistance_ohm: -10}}]` the validator does *not* behave as the spec
scenario states — the single error's text does not contain `"positive"`
(it reads `Component R1 has negative resistance: -10`). -/
theorem negative_resistance_scenario_not_as_specified :
    ¬ ((validateCircuit negativeResistanceDoc).2.errors.length = 1 ∧
       (validateCircuit negativeResistanceDoc).2.errors.all
         (fun e => containsStr e "R1" && containsStr e "positive") = true ∧
       (validateCircuit negativeResistanceDoc).1 = false) := by
  decide

/-- C1 (amended): that document yields exactly one error, the error contains
`"R1"` and `"negative"`, and `is_valid` is false. -/
theorem negative_resistance_scenario :
    (validateCircuit negativeResistanceDoc).2.errors =
      ["Component R1 has negative resistance: -10"] ∧
    (validateCircuit negativeResistanceDoc).2.errors.all
      (fun e => containsStr e "R1" && containsStr e "negative") = true ∧
    (validateCircuit negativeResistanceDoc).1 = false := by
  decide

/-! ## C2 — sign checks are strict (`< 0`, not `≤ 0`) -/

/-- C2 (counterexample): a resistor whose `resistance_ohm` is exactly `0`
triggers no error at all — the code checks `resistance < 0`, so `≤ 0` is not
the implemented predicate. -/
theorem zero_resistance_not_flagged :
    (validateCircuit zeroResistanceDoc).2.errors = [] ∧
    (validateCircuit zeroResistanceDoc).1 = true := by
  decide

/-- Phase decomposition of the error list. -/
lemma validateCircuit_errors (doc : Circuit) :
    (validateCircuit doc).2.errors =
      (validateComponents doc).errors ++ (validateConnections doc).errors ++
      (validateNets doc).errors ++ (validateComponentValues doc).errors ++
      (validatePins doc).errors := by
  simp [validateCircuit]

/-- Phase decomposition of the warning list (the schema phase contributes the
schema-missing warning up front). -/
lemma validateCircuit_warnings (doc : Circuit) :
    (validateCircuit doc).2.warnings =
      "Schema file not found, skipping schema validation" ::
      ((validateComponents doc).warnings ++ (validateConnections doc).warnings ++
       (validateNets doc).warnings ++ (validateComponentValues doc).warnings ++
       (validatePins doc).warnings) := by
  simp [validateCircuit]

/-- C2 (amended): the implemented sign checks are strict.  A resistor with a
numeric `resistance_ohm` strictly below zero gets an error, a capacitor with
a numeric `capacitance_f` strictly below zero gets an error, and any
component with a numeric `voltage_rating_v` strictly below zero gets a
warning (not an error). -/
theorem strict_negative_sign_checks (doc : Circuit) (c : Component) (q : ℚ)
    (hc : c ∈ doc.components) :
    (c.ctype = some "resistor" →
      pyGet c.params "resistance_ohm" = some (.num q) → q < 0 →
      msgNegResistance c.id (PValue.num q).render ∈ (validateCircuit doc).2.errors) ∧
    (c.ctype = some "capacitor" →
      pyGet c.params "capacitance_f" = some (.num q) → q < 0 →
      msgNegCapacitance c.id (PValue.num q).render ∈ (validateCircuit doc).2.errors) ∧
    (pyGet c.params "voltage_rating_v" = some (.num q) → q < 0 →
      msgNegVoltageRating c.id ∈ (validateCircuit doc).2.warnings) := by
  refine ⟨fun ht hp hq => ?_, fun ht hp hq => ?_, fun hp hq => ?_⟩
  · rw [validateCircuit_errors]
    have : msgNegResistance c.id (PValue.num q).render ∈
        (validateComponentValues doc).errors := by
      simp only [validateComponentValues, List.mem_flatMap]
      exact ⟨c, hc, by simp [ht, hp, PValue.isNumber, PValue.numVal, hq]⟩
    simp [this]
  · rw [validateCircuit_errors]
    have : msgNegCapacitance c.id (PValue.num q).render ∈
        (validateComponentValues doc).errors := by
      simp only [validateComponentValues, List.mem_flatMap]
      refine ⟨c, hc, ?_⟩
      have hres : c.ctype ≠ some "resistor" := by rw [ht]; simp
      simp [ht, hp, hres, PValue.isNumber, PValue.numVal, hq]
    simp [this]
  · rw [validateCircuit_warnings]
    have : msgNegVoltageRating c.id ∈ (validateComponentValues doc).warnings := by
      simp only [validateComponentValues, List.mem_flatMap]
      exact ⟨c, hc, by simp [hp, PValue.isNumber, PValue.numVal, hq]⟩
    simp [this]

/-- Witness for `strict_negative_sign_checks` at the `-10` Ω resistor. -/
theorem strict_negative_sign_checks_witness :
    ({ bareComponent "R1" (some "resistor") with
         params := [("resistance_ohm", .num (-10))] } ∈
       negativeResistanceDoc.components) ∧
    (({ bareComponent "R1" (some "resistor") with
          params := [("resistance_ohm", .num (-10))] } : Component).ctype =
        some "resistor" →
      pyGet [("resistance_ohm", PValue.num (-10))] "resistance_ohm" =
        some (.num (-10)) → (-10 : ℚ) < 0 →
      msgNegResistance "R1" (PValue.num (-10)).render ∈
        (validateCircuit negativeResistanceDoc).2.errors) := by
  refine ⟨by decide, ?_⟩
  exact (strict_negative_sign_checks negativeResistanceDoc _ (-10) (by decide)).1

/-! ## C3 — duplicate net ids -/

/-- C3 (counterexample): two nets sharing id `"NET1"` produce *no* error —
the duplicate surfaces only as the warning `Duplicate net name: NET1`
(`_validate_nets` tracks `net.get('name', net_id)` and appends to
`self.warnings`). -/
theorem duplicate_net_id_not_an_error :
    (validateCircuit duplicateNetIdDoc).2.errors = [] ∧
    msgDupNetName "NET1" ∈ (validateCircuit duplicateNetIdDoc).2.warnings ∧
    (validateCircuit duplicateNetIdDoc).1 = true := by
  decide

/-- If a net's display name is already among the seen names, the loop warns
about it. -/
lemma netsLoop_warns_of_seen (cp : List (String × List String)) :
    ∀ (nets : List Net) (seen : List String) (nm : String),
      nm ∈ seen → nm ∈ nets.map netDisplayName →
      msgDupNetName nm ∈ (netsLoop cp nets seen).2
  | net :: rest, seen, nm, hseen, hmem => by
    simp only [List.map_cons, List.mem_cons] at hmem
    simp only [netsLoop]
    rcases hmem with heq | hmem
    · subst heq
      exact List.mem_append_left _ (List.mem_append_left _ (by simp [hseen]))
    · refine List.mem_append_right _ ?_
      by_cases hin : netDisplayName net ∈ seen
      · simp only [if_pos hin]
        exact netsLoop_warns_of_seen cp rest seen nm hseen hmem
      · simp only [if_neg hin]
        exact netsLoop_warns_of_seen cp rest _ nm (List.mem_cons_of_mem _ hseen) hmem

/-- If the net list contains two entries with the same display name, the
loop emits the duplicate-name warning, from any starting seen-set. -/
lemma netsLoop_warns_of_dup (cp : List (String × List String)) :
    ∀ (l1 : List Net) (n1 : Net) (l2 : List Net) (n2 : Net) (l3 : List Net)
      (seen : List String), netDisplayName n1 = netDisplayName n2 →
      msgDupNetName (netDisplayName n2) ∈
        (netsLoop cp (l1 ++ n1 :: l2 ++ n2 :: l3) seen).2
  | [], n1, l2, n2, l3, seen, hname => by
    simp only [List.nil_append, netsLoop]
    refine List.mem_append_right _ ?_
    have hseen' : netDisplayName n2 ∈
        (if netDisplayName n1 ∈ seen then seen else netDisplayName n1 :: seen) := by
      by_cases h : netDisplayName n1 ∈ seen
      · rw [if_pos h]; exact hname ▸ h
      · rw [if_neg h]; exact hname ▸ List.mem_cons_self _ _
    exact netsLoop_warns_of_seen cp (l2 ++ n2 :: l3) _ _ hseen' (by simp)
  | x :: l1, n1, l2, n2, l3, seen, hname => by
    simp only [List.cons_append, netsLoop]
    exact List.mem_append_right _ (netsLoop_warns_of_dup cp l1 n1 l2 n2 l3 _ hname)

/-- C3 (amended): whenever the document's `nets` list carries two entries
with the same display name (`net.get('name', net_id)` — in particular two
nets with the same id and no `name` key), semantic validation emits the
duplicate-net-name *warning* naming the duplicate. -/
theorem duplicate_net_name_warning (doc : Circuit) (l1 : List Net) (n1 : Net)
    (l2 : List Net) (n2 : Net) (l3 : List Net)
    (hsplit : doc.nets = l1 ++ n1 :: l2 ++ n2 :: l3)
    (hname : netDisplayName n1 = netDisplayName n2) :
    msgDupNetName (netDisplayName n2) ∈ (validateCircuit doc).2.warnings := by
  rw [validateCircuit_warnings]
  have hne : doc.nets ≠ [] := by rw [hsplit]; simp
  have : msgDupNetName (netDisplayName n2) ∈ (validateNets doc).warnings := by
    simp only [validateNets, if_neg hne]
    rw [hsplit]
    exact netsLoop_warns_of_dup _ l1 n1 l2 n2 l3 [] hname
  simp [this]

/-- Witness for `duplicate_net_name_warning` at the two-`NET1` document. -/
theorem duplicate_net_name_warning_witness :
    (duplicateNetIdDoc.nets = [] ++ net1A :: [] ++ net1B :: []) ∧
    netDisplayName net1A = netDisplayName net1B ∧
    msgDupNetName (netDisplayName net1B) ∈
      (validateCircuit duplicateNetIdDoc).2.warnings := by
  refine ⟨by decide, by decide, ?_⟩
  exact duplicate_net_name_warning duplicateNetIdDoc [] net1A [] net1B []
    (by decide) (by decide)

/-! ## Dict lemmas for the diff engine -/

/-- `pyUpsert` only rewrites a value in place or appends a fresh key. -/
lemma map_fst_pyUpsert (m : List (String × α)) (k : String) (v : α) :
    (pyUpsert m k v).map Prod.fst =
      if m.any (fun p => p.1 = k) then m.map Prod.fst
      else m.map Prod.fst ++ [k] := by
  unfold pyUpsert
  split
  · rw [List.map_map]
    refine List.map_congr_left (fun p _ => ?_)
    by_cases h : p.1 = k <;> simp [h]
  · simp

/-- The keys of a `pyUpsert`-built dict are pairwise distinct. -/
lemma pyDictBy_keys_nodup (f : α → String) (l : List α) :
    ((pyDictBy f l).map Prod.fst).Nodup := by
  suffices h : ∀ (l : List α) (acc : List (String × α)), (acc.map Prod.fst).Nodup →
      (((l.foldl (fun m c => pyUpsert m (f c) c) acc)).map Prod.fst).Nodup by
    exact h l [] (by simp)
  intro l
  induction l with
  | nil => intro acc h; simpa using h
  | cons c rest ih =>
    intro acc hacc
    refine ih _ ?_
    rw [map_fst_pyUpsert]
    split
    · exact hacc
    · rename_i hany
      rw [List.any_eq_true] at hany
      push_neg at hany
      refine List.Nodup.append hacc (List.nodup_singleton _) ?_
      intro x hx hx'
      simp only [List.mem_singleton] at hx'
      subst hx'
      obtain ⟨p, hp, hpk⟩ := List.mem_map.mp hx
      exact hany p hp (by simpa using hpk)

/-- Every pair of a dict keyed by `f` satisfies `f value = key`. -/
lemma mem_pyDictBy_key (f : α → String) (l : List α) :
    ∀ p ∈ pyDictBy f l, f p.2 = p.1 := by
  suffices h : ∀ (l : List α) (acc : List (String × α)),
      (∀ p ∈ acc, f p.2 = p.1) →
      ∀ p ∈ l.foldl (fun m c => pyUpsert m (f c) c) acc, f p.2 = p.1 by
    exact h l [] (by simp)
  intro l
  induction l with
  | nil => intro acc h; simpa using h
  | cons c rest ih =>
    intro acc hacc
    refine ih _ ?_
    intro p hp
    simp only [pyUpsert] at hp
    split at hp
    · obtain ⟨q, hq, hqp⟩ := List.mem_map.mp hp
      by_cases h : q.1 = f c
      · simp only [h, if_pos] at hqp
        subst hqp; rfl
      · simp only [h, if_neg, if_false] at hqp
        subst hqp; exact hacc q hq
    · rcases List.mem_append.mp hp with h | h
      · exact hacc p h
      · simp only [List.mem_singleton] at h
        subst h; rfl

/-- Lookup of a present key in a dict with distinct keys. -/
lemma dictFind_eq_of_mem_nodup {m : List (String × α)} {k : String} {v : α}
    (hnd : (m.map Prod.fst).Nodup) (hmem : (k, v) ∈ m) :
    dictFind m k = some v := by
  induction m with
  | nil => cases hmem
  | cons q rest ih =>
    simp only [List.map_cons, List.nodup_cons] at hnd
    rcases List.mem_cons.mp hmem with h | h
    · subst h
      simp [dictFind]
    · have hk : q.1 ≠ k := by
        intro hq
        exact hnd.1 (hq ▸ List.mem_map.mpr ⟨(k, v), h, rfl⟩)
      simp only [dictFind, List.find?]
      rw [show (decide (q.1 = k)) = false by simpa using hk]
      exact ih hnd.2 h

/-- `dictMem` is key membership. -/
lemma dictMem_iff {m : List (String × α)} {k : String} :
    dictMem m k = true ↔ k ∈ m.map Prod.fst := by
  simp only [dictMem, List.any_eq_true, List.mem_map]
  constructor
  · rintro ⟨p, hp, hk⟩
    exact ⟨p, hp, by simpa using hk⟩
  · rintro ⟨p, hp, hk⟩
    exact ⟨p, hp, by simpa using hk⟩

/-- `pySetEq` is reflexive. -/
lemma pySetEq_refl [DecidableEq α] (a : List α) : pySetEq a a = true := by
  simp [pySetEq, List.all_eq_true]

/-- Comparing a component with itself yields no changes. -/
lemma compareComponents_self (c : Component) : compareComponents c c = [] := by
  unfold compareComponents fieldChange
  simp only [ne_eq, not_true_eq_false, false_and, if_false, List.nil_append]
  rw [List.append_eq_nil]
  constructor
  · split
    · rfl
    · simp
  · split
    · rfl
    · rw [if_neg (by simp [pySetEq_refl])]
      rw [List.flatMap_eq_nil_iff]
      intro pid _
      cases dictFind c.pins pid <;> simp

/-! ## C6 — diff symmetry and reflexivity -/

/-- C6: `diff(A,B).added` is exactly `diff(B,A).removed` (and vice versa) —
they are the same list, hence the same set — and `diff(A,A)` has empty
`added`, `removed`, `modified` and `netsChanged`. -/
theorem diff_symmetry_and_reflexivity (A B : Circuit) :
    (computeDiff A B).componentsAdded = (computeDiff B A).componentsRemoved ∧
    (computeDiff A B).componentsRemoved = (computeDiff B A).componentsAdded ∧
    (computeDiff A A).componentsAdded = [] ∧
    (computeDiff A A).componentsRemoved = [] ∧
    (computeDiff A A).componentsModified = [] ∧
    (computeDiff A A).netsChanged = [] := by
  refine ⟨rfl, rfl, ?_, ?_, ?_, ?_⟩
  · simp only [computeDiff, diffComponents]
    rw [List.filter_eq_nil_iff.mpr, List.map_nil]
    intro p hp
    simp only [Bool.not_eq_true', Bool.not_eq_false]
    exact dictMem_iff.mpr (List.mem_map.mpr ⟨p, hp, rfl⟩)
  · simp only [computeDiff, diffComponents]
    rw [List.filter_eq_nil_iff.mpr, List.map_nil]
    intro p hp
    simp only [Bool.not_eq_true', Bool.not_eq_false]
    exact dictMem_iff.mpr (List.mem_map.mpr ⟨p, hp, rfl⟩)
  · simp only [computeDiff, diffComponents]
    rw [List.filterMap_eq_nil_iff.mpr]
    intro p hp
    have hp' : p ∈ pyDictBy Component.id A.components := List.mem_filter.mp hp |>.1
    have hfind : dictFind (pyDictBy Component.id A.components) p.1 = some p.2 :=
      dictFind_eq_of_mem_nodup (pyDictBy_keys_nodup _ _)
        (by simpa using hp')
    rw [hfind]
    simp [compareComponents_self]
  · simp only [computeDiff, diffNets]
    have h1 : List.filter (fun k => decide (k ∉ (pyDictBy Net.id A.nets).map Prod.fst))
        ((pyDictBy Net.id A.nets).map Prod.fst) = [] := by
      rw [List.filter_eq_nil_iff]
      intro k hk
      simpa using hk
    rw [h1]
    simp only [List.nil_append, List.append_nil]
    rw [List.filterMap_eq_nil_iff]
    intro p hp
    have hp' : p ∈ pyDictBy Net.id A.nets := (List.mem_filter.mp hp).1
    have hfind : dictFind (pyDictBy Net.id A.nets) p.1 = some p.2 :=
      dictFind_eq_of_mem_nodup (pyDictBy_keys_nodup _ _) (by simpa using hp')
    rw [hfind]
    simp [pySetEq_refl]

/-- Filtering on the key commutes with projecting the keys. -/
lemma map_fst_filter_key (m : List (String × α)) (g : String → Bool) :
    (m.filter (fun p => g p.1)).map Prod.fst = (m.map Prod.fst).filter g := by
  induction m with
  | nil => rfl
  | cons p t ih =>
    by_cases h : g p.1 <;> simp [List.filter_cons, h, ih]

/-- Projecting the values of a keyed dict back through the key function
recovers the keys. -/
lemma map_snd_key (m : List (String × α)) (f : α → String)
    (H : ∀ p ∈ m, f p.2 = p.1) (pr : String × α → Bool) :
    ((m.filter pr).map Prod.snd).map f = (m.filter pr).map Prod.fst := by
  rw [List.map_map]
  exact List.map_congr_left (fun p hp => H p (List.mem_filter.mp hp).1)

/-- A `filterMap` whose produced elements remember their source key projects
to a sublist of the source keys. -/
lemma filterMap_map_sublist {α β γ : Type _} (f : α → Option β) (g : β → γ)
    (h : α → γ) (l : List α) (H : ∀ a b, f a = some b → g b = h a) :
    ((l.filterMap f).map g).Sublist (l.map h) := by
  induction l with
  | nil => simp
  | cons a t ih =>
    rw [List.filterMap_cons]
    cases hfa : f a with
    | none => exact ih.cons _
    | some b =>
      rw [List.map_cons, List.map_cons, H a b hfa]
      exact ih.cons₂ _

/-- Specialization of `map_fst_filter_key` to the absent-key predicate. -/
lemma map_fst_filter_not_mem (m m2 : List (String × α)) :
    (m.filter (fun p => !dictMem m2 p.1)).map Prod.fst =
      (m.map Prod.fst).filter (fun k => !dictMem m2 k) :=
  map_fst_filter_key m (fun k => !dictMem m2 k)

/-- Specialization of `map_fst_filter_key` to the present-key predicate. -/
lemma map_fst_filter_mem (m m2 : List (String × α)) :
    (m.filter (fun p => dictMem m2 p.1)).map Prod.fst =
      (m.map Prod.fst).filter (fun k => dictMem m2 k) :=
  map_fst_filter_key m (fun k => dictMem m2 k)

/-! ## C10 — each component id appears at most once across the diff lists -/

/-- C10: in the output of `compute_diff`, the multiset of ids across
`components_added`, `components_removed` and `components_modified` has no
repetition: the keyed-dict construction dedupes ids, and the three key sets
are pairwise disjoint. -/
theorem diff_component_ids_nodup (A B : Circuit) :
    ((computeDiff A B).componentsAdded.map Component.id ++
     (computeDiff A B).componentsRemoved.map Component.id ++
     (computeDiff A B).componentsModified.map ModifiedEntry.id).Nodup := by
  simp only [computeDiff, diffComponents]
  have hOld := pyDictBy_keys_nodup Component.id A.components
  have hNew := pyDictBy_keys_nodup Component.id B.components
  have hOldKey := mem_pyDictBy_key Component.id A.components
  have hNewKey := mem_pyDictBy_key Component.id B.components
  rw [map_snd_key _ _ hNewKey, map_snd_key _ _ hOldKey]
  rw [map_fst_filter_not_mem, map_fst_filter_not_mem]
  have hmod : (((pyDictBy Component.id A.components).filter
        (fun p => dictMem (pyDictBy Component.id B.components) p.1)).filterMap
        (fun p => match dictFind (pyDictBy Component.id B.components) p.1 with
          | some newComp =>
              if compareComponents p.2 newComp = [] then none
              else some ⟨p.1, compareComponents p.2 newComp⟩
          | none => none)).map ModifiedEntry.id |>.Sublist
      (((pyDictBy Component.id A.components).map Prod.fst).filter
        (fun k => dictMem (pyDictBy Component.id B.components) k)) := by
    rw [← map_fst_filter_mem]
    refine filterMap_map_sublist _ _ _ _ ?_
    intro p e hpe
    cases hfind : dictFind (pyDictBy Component.id B.components) p.1 with
    | none => rw [hfind] at hpe; cases hpe
    | some nc =>
      rw [hfind] at hpe
      have hpe' : (if compareComponents p.2 nc = [] then none
          else some (⟨p.1, compareComponents p.2 nc⟩ : ModifiedEntry)) = some e := hpe
      by_cases hch : compareComponents p.2 nc = []
      · rw [if_pos hch] at hpe'; cases hpe'
      · rw [if_neg hch] at hpe'
        cases hpe'
        rfl
  refine List.Nodup.append (List.Nodup.append (hNew.filter _) (hOld.filter _) ?_)
    (hmod.nodup (hOld.filter _)) ?_
  · intro x hx hx'
    have h1 := (List.mem_filter.mp hx).2
    have h2 := (List.mem_filter.mp hx').1
    simp only [Bool.not_eq_true', ← Bool.not_eq_true] at h1
    exact h1 (dictMem_iff.mpr h2)
  · intro x hx hx'
    have hmodmem := hmod.subset hx'
    rcases List.mem_append.mp hx with h | h
    · have h1 := (List.mem_filter.mp h).2
      have h2 := (List.mem_filter.mp hmodmem).1
      simp only [Bool.not_eq_true', ← Bool.not_eq_true] at h1
      exact h1 (dictMem_iff.mpr h2)
    · have h1 := (List.mem_filter.mp h).2
      have h2 := (List.mem_filter.mp hmodmem).2
      simp only [Bool.not_eq_true'] at h1
      rw [h2] at h1
      cases h1

/-! ## C7 — net diffs ignore connection order -/

/-- Key-membership `any` only looks at the keys. -/
lemma any_key_eq (m : List (String × α)) (s : String) :
    (m.any fun p => p.1 = s) = ((m.map Prod.fst).any fun x => x = s) := by
  induction m with
  | nil => rfl
  | cons q t ih => simp [ih]

/-- Upserting a key makes its lookup return the new value. -/
lemma dictFind_pyUpsert_self (m : List (String × α)) (k : String) (v : α) :
    dictFind (pyUpsert m k v) k = some v := by
  unfold pyUpsert
  split
  · rename_i hany
    induction m with
    | nil => simp at hany
    | cons q rest ih =>
      by_cases hq : q.1 = k
      · simp [dictFind, hq]
      · simp only [List.any_cons, Bool.or_eq_true, decide_eq_true_eq] at hany
        rcases hany with h | h
        · exact absurd h hq
        · simp only [List.map_cons, if_neg hq, dictFind, List.find?]
          rw [show (decide (q.1 = k)) = false by simpa using hq]
          exact ih h
  · induction m with
    | nil => simp [dictFind]
    | cons q rest ih =>
      rename_i hany
      simp only [List.any_cons, Bool.or_eq_true, decide_eq_true_eq] at hany
      push_neg at hany
      simp only [List.cons_append, dictFind, List.find?]
      rw [show (decide (q.1 = k)) = false by simpa using hany.1]
      exact ih (by simpa using hany.2)

/-- Rewriting the value at one key does not disturb other keys' lookups. -/
lemma dictFind_map_replace_ne (m : List (String × α)) {k k' : String} (v : α)
    (hne : k' ≠ k) :
    dictFind (m.map (fun p => if p.1 = k then (k, v) else p)) k' = dictFind m k' := by
  induction m with
  | nil => rfl
  | cons q rest ih =>
    by_cases hq : q.1 = k
    · simp only [List.map_cons, if_pos hq, dictFind, List.find?]
      rw [show (decide (k = k')) = false by simpa using (hne ∘ Eq.symm),
        show (decide (q.1 = k')) = false by
          simp only [decide_eq_false_iff_not]
          exact fun h => hne (h ▸ hq ▸ rfl)]
      exact ih
    · simp only [List.map_cons, if_neg hq, dictFind, List.find?]
      cases hq' : decide (q.1 = k') with
      | true => rfl
      | false => exact ih

/-- Upserting an absent-or-present key leaves every other key unchanged. -/
lemma dictFind_pyUpsert_ne (m : List (String × α)) {k k' : String} (v : α)
    (hne : k' ≠ k) : dictFind (pyUpsert m k v) k' = dictFind m k' := by
  unfold pyUpsert
  split
  · exact dictFind_map_replace_ne m v hne
  · rw [dictFind, List.find?_append]
    cases h : List.find? (fun p => p.1 = k') m with
    | some p => simp [dictFind, h]
    | none =>
      simp only [Option.none_or]
      simp only [dictFind, h, Option.map_none', List.find?]
      rw [show (decide (k = k')) = false by simpa using (hne ∘ Eq.symm)]
      rfl

/-- The dict built from a list answers lookups with the *last* element of the
list carrying the key — Python's last-assignment-wins. -/
lemma dictFind_pyDictBy (f : α → String) (l : List α) (k : String) :
    dictFind (pyDictBy f l) k =
      match l.reverse.find? (fun a => f a = k) with
      | some a => some a
      | none => none := by
  suffices h : ∀ (l : List α) (acc : List (String × α)),
      dictFind (l.foldl (fun m c => pyUpsert m (f c) c) acc) k =
        match l.reverse.find? (fun a => f a = k) with
        | some a => some a
        | none => dictFind acc k by
    have := h l []
    simpa [dictFind] using this
  intro l
  induction l with
  | nil => intro acc; simp
  | cons c rest ih =>
    intro acc
    simp only [List.foldl_cons, List.reverse_cons, List.find?_append]
    rw [ih]
    cases hrest : rest.reverse.find? (fun a => decide (f a = k)) with
    | some a => simp
    | none =>
      simp only [Option.none_or]
      by_cases hc : f c = k
      · rw [show List.find? (fun a => decide (f a = k)) [c] = some c by
          simp [List.find?, hc]]
        exact hc ▸ dictFind_pyUpsert_self acc (f c) c
      · rw [show List.find? (fun a => decide (f a = k)) [c] = none by
          simp only [List.find?]
          rw [show (decide (f c = k)) = false by simpa using hc]]
        exact dictFind_pyUpsert_ne acc c (fun h => hc h.symm)

/-- The keys of a keyed dict depend only on the key list. -/
lemma keys_pyDictBy_congr {f : α → String} {g : β → String}
    {l : List α} {l' : List β} (h : l.map f = l'.map g) :
    (pyDictBy f l).map Prod.fst = (pyDictBy g l').map Prod.fst := by
  suffices haux : ∀ (l : List α) (l' : List β) (acc : List (String × α))
      (acc' : List (String × β)), l.map f = l'.map g →
      acc.map Prod.fst = acc'.map Prod.fst →
      (l.foldl (fun m c => pyUpsert m (f c) c) acc).map Prod.fst =
        (l'.foldl (fun m c => pyUpsert m (g c) c) acc').map Prod.fst by
    exact haux l l' [] [] h rfl
  intro l
  induction l with
  | nil =>
    intro l' acc acc' hmap hacc
    rw [List.map_nil] at hmap
    have : l' = [] := by simpa using hmap.symm
    subst this
    simpa using hacc
  | cons c rest ih =>
    intro l' acc acc' hmap hacc
    cases l' with
    | nil => simp at hmap
    | cons c' rest' =>
      simp only [List.map_cons, List.cons.injEq] at hmap
      obtain ⟨hkey, hrest⟩ := hmap
      refine ih rest' _ _ hrest ?_
      rw [map_fst_pyUpsert, map_fst_pyUpsert]
      have hany : (acc.any fun p => p.1 = f c) = (acc'.any fun p => p.1 = g c') := by
        rw [any_key_eq, any_key_eq acc', hacc, hkey]
      rw [hany]
      split
      · exact hacc
      · rw [hacc, hkey]

/-- `map Net.id` through a `Forall₂` with pointwise-equal ids. -/
lemma forall₂_map_net_id {R : Net → Net → Prop} (hid : ∀ a b, R a b → a.id = b.id) :
    ∀ {l l' : List Net}, List.Forall₂ R l l' → l.map Net.id = l'.map Net.id := by
  intro l l' h
  induction h with
  | nil => rfl
  | cons hab _ ih => simp [hid _ _ hab, ih]

/-- Corresponding finds in `Forall₂`-related lists with pointwise-equal ids. -/
lemma find?_forall₂ {R : Net → Net → Prop}
    (hid : ∀ a b, R a b → a.id = b.id) :
    ∀ {l l' : List Net}, List.Forall₂ R l l' → ∀ {k : String} {v : Net},
      l.find? (fun a => a.id = k) = some v →
      ∃ w, l'.find? (fun b => b.id = k) = some w ∧ R v w := by
  intro l l' h
  induction h with
  | nil => intro k v hv; cases hv
  | cons hab htail ih =>
    rename_i a b l₁ l₂
    intro k v hv
    by_cases hk : a.id = k
    · rw [List.find?_cons_of_pos _ (by simpa using hk)] at hv
      cases hv
      exact ⟨b, List.find?_cons_of_pos _ (by simp [← hid _ _ hab, hk]), hab⟩
    · rw [List.find?_cons_of_neg _ (by simpa using hk)] at hv
      obtain ⟨w, hw, hr⟩ := ih hv
      refine ⟨w, ?_, hr⟩
      rw [List.find?_cons_of_neg _ (by simp [← hid _ _ hab, hk])]
      exact hw

/-- Permuted lists are equal as Python sets. -/
lemma pySetEq_of_perm [DecidableEq α] {a b : List α} (h : a.Perm b) :
    pySetEq a b = true := by
  simp only [pySetEq, Bool.and_eq_true, List.all_eq_true, decide_eq_true_eq]
  exact ⟨fun x hx => h.mem_iff.mp hx, fun x hx => h.mem_iff.mpr hx⟩

/-- C7: if two documents' net lists agree pointwise on ids and have
per-net connection lists that are permutations of one another, the computed
`nets_changed` list is empty — reordering connections never produces a
change. -/
theorem nets_order_independence (A B : Circuit)
    (h : List.Forall₂ (fun na nb => na.id = nb.id ∧ na.connections.Perm nb.connections)
      A.nets B.nets) :
    (computeDiff A B).netsChanged = [] := by
  simp only [computeDiff, diffNets]
  have hids : A.nets.map Net.id = B.nets.map Net.id :=
    forall₂_map_net_id (fun a b hab => hab.1) h
  have hkeys : (pyDictBy Net.id A.nets).map Prod.fst =
      (pyDictBy Net.id B.nets).map Prod.fst := keys_pyDictBy_congr hids
  have h1 : List.filter (fun k => decide (k ∉ (pyDictBy Net.id A.nets).map Prod.fst))
      ((pyDictBy Net.id B.nets).map Prod.fst) = [] := by
    rw [List.filter_eq_nil_iff]
    intro k hk
    rw [hkeys]
    simpa using hk
  have h2 : List.filter (fun k => decide (k ∉ (pyDictBy Net.id B.nets).map Prod.fst))
      ((pyDictBy Net.id A.nets).map Prod.fst) = [] := by
    rw [List.filter_eq_nil_iff]
    intro k hk
    rw [← hkeys]
    simpa using hk
  rw [h1, h2]
  simp only [List.nil_append]
  rw [List.filterMap_eq_nil_iff]
  intro p hp
  have hp' : p ∈ pyDictBy Net.id A.nets := (List.mem_filter.mp hp).1
  have hfindA : dictFind (pyDictBy Net.id A.nets) p.1 = some p.2 :=
    dictFind_eq_of_mem_nodup (pyDictBy_keys_nodup _ _) (by simpa using hp')
  have hrevA : A.nets.reverse.find? (fun a => a.id = p.1) = some p.2 := by
    have hchar := dictFind_pyDictBy Net.id A.nets p.1
    rw [hfindA] at hchar
    cases hr : A.nets.reverse.find? (fun a => decide (a.id = p.1)) with
    | some a => rw [hr] at hchar; simpa using hchar.symm
    | none => rw [hr] at hchar; cases hchar
  have hrev : List.Forall₂
      (fun na nb => na.id = nb.id ∧ na.connections.Perm nb.connections)
      A.nets.reverse B.nets.reverse := List.forall₂_reverse_iff.mpr h
  obtain ⟨w, hw, hr⟩ := find?_forall₂ (fun a b hab => hab.1) hrev hrevA
  have hfindB : dictFind (pyDictBy Net.id B.nets) p.1 = some w := by
    rw [dictFind_pyDictBy, hw]
  rw [hfindB]
  show (if pySetEq (normalizeConnections p.2.connections)
      (normalizeConnections w.connections) = true then none else some p.1) = none
  have hperm : (List.map (fun c : NetConn => (c.component, c.pin)) p.2.connections).Perm
      (List.map (fun c : NetConn => (c.component, c.pin)) w.connections) :=
    hr.2.map _
  have hps : pySetEq (normalizeConnections p.2.connections)
      (normalizeConnections w.connections) = true := pySetEq_of_perm hperm
  rw [if_pos hps]

/-- Witness for `nets_order_independence`: the same single net with its two
connections swapped. -/
theorem nets_order_independence_witness :
    List.Forall₂ (fun na nb => na.id = nb.id ∧ na.connections.Perm nb.connections)
      (⟨[], [], [⟨"N1", none, [⟨"R1", "1"⟩, ⟨"R2", "1"⟩]⟩], []⟩ : Circuit).nets
      (⟨[], [], [⟨"N1", none, [⟨"R2", "1"⟩, ⟨"R1", "1"⟩]⟩], []⟩ : Circuit).nets ∧
    (computeDiff ⟨[], [], [⟨"N1", none, [⟨"R1", "1"⟩, ⟨"R2", "1"⟩]⟩], []⟩
      ⟨[], [], [⟨"N1", none, [⟨"R2", "1"⟩, ⟨"R1", "1"⟩]⟩], []⟩).netsChanged = [] := by
  have hf : List.Forall₂ (fun na nb => na.id = nb.id ∧ na.connections.Perm nb.connections)
      (⟨[], [], [⟨"N1", none, [⟨"R1", "1"⟩, ⟨"R2", "1"⟩]⟩], []⟩ : Circuit).nets
      (⟨[], [], [⟨"N1", none, [⟨"R2", "1"⟩, ⟨"R1", "1"⟩]⟩], []⟩ : Circuit).nets := by
    refine List.Forall₂.cons ⟨rfl, ?_⟩ List.Forall₂.nil
    decide
  exact ⟨hf, nets_order_independence _ _ hf⟩

/-! ## C5 — a failed save never touches the target -/

/-- Reading an untouched path after a write to a different path. -/
lemma fsGet_fsSet_ne (fs : FS) {p q : String} (c : String) (h : q ≠ p) :
    fsGet (fsSet fs p c) q = fsGet fs q :=
  dictFind_pyUpsert_ne fs c h

/-- Reading the path just written. -/
lemma fsGet_fsSet_self (fs : FS) (p c : String) :
    fsGet (fsSet fs p c) p = some c :=
  dictFind_pyUpsert_self fs p c

/-- A deleted path reads as absent. -/
lemma fsGet_fsDel_self (fs : FS) (p : String) :
    fsGet (fsDel fs p) p = none := by
  unfold fsGet fsDel
  rw [List.find?_eq_none.mpr, Option.map_none']
  intro x hx
  have := (List.mem_filter.mp hx).2
  simpa using this

/-- Deleting one path leaves the others readable. -/
lemma fsGet_fsDel_ne (fs : FS) {p q : String} (h : q ≠ p) :
    fsGet (fsDel fs p) q = fsGet fs q := by
  unfold fsGet fsDel
  induction fs with
  | nil => rfl
  | cons e rest ih =>
    rw [List.filter_cons]
    by_cases he : e.1 = p
    · have hq : (decide (e.1 = q)) = false := by
        simp only [decide_eq_false_iff_not]
        exact fun hh => h (hh ▸ he ▸ rfl)
      rw [if_neg (by simpa using he)]
      conv_rhs => rw [List.find?]
      rw [hq]
      exact ih
    · rw [if_pos (by simpa using he)]
      conv_lhs => rw [List.find?]
      conv_rhs => rw [List.find?]
      cases he' : decide (e.1 = q) with
      | true => rfl
      | false => exact ih

/-- The temporary sibling never collides with the target. -/
lemma tmpName_ne (p : String) : tmpName p ≠ p := by
  intro h
  have hlen := congrArg String.length h
  simp only [tmpName, String.length_append] at hlen
  rw [show (".".length) = 1 from rfl, show (".tmp".length) = 4 from rfl] at hlen
  omega

/-- The backup path never collides with the target. -/
lemma backupName_ne (p : String) : backupName p ≠ p := by
  intro h
  have hlen := congrArg String.length h
  simp only [backupName, String.length_append] at hlen
  rw [show (".backup".length) = 7 from rfl] at hlen
  omega

/-- The backup path never collides with the temporary sibling. -/
lemma backupName_ne_tmpName (p : String) : backupName p ≠ tmpName p := by
  intro h
  have hlen := congrArg String.length h
  simp only [backupName, tmpName, String.length_append] at hlen
  rw [show (".backup".length) = 7 from rfl, show (".".length) = 1 from rfl,
    show (".tmp".length) = 4 from rfl] at hlen
  omega

/-- The filesystem after the (possibly failing) backup step of
`save_circuit` agrees with the original on the target and its temp name. -/
lemma backup_step_preserves (fs : FS) (p : String) (b : Bool) :
    fsGet (if b ∧ (fsGet fs p).isSome then
        fsSet fs (backupName p) ((fsGet fs p).getD "") else fs) p = fsGet fs p ∧
    fsGet (if b ∧ (fsGet fs p).isSome then
        fsSet fs (backupName p) ((fsGet fs p).getD "") else fs) (tmpName p) =
      fsGet fs (tmpName p) := by
  by_cases hb : b ∧ (fsGet fs p).isSome
  · rw [if_pos hb]
    exact ⟨fsGet_fsSet_ne fs _ (Ne.symm (backupName_ne p)),
      fsGet_fsSet_ne fs _ (Ne.symm (backupName_ne_tmpName p))⟩
  · rw [if_neg hb]
    exact ⟨rfl, rfl⟩

/-- C5: whenever `save_circuit` raises — the pre-write validation rejects the
data, or `mkstemp`, the write to the temporary file, or the final rename
fails — the target path holds exactly what it held before the call, and the
temporary file is gone (assuming `mkstemp`'s name was fresh, which `mkstemp`
guarantees). -/
theorem save_failure_preserves_target (fs : FS) (p : String) (data : JVal)
    (vp : Option (JVal → Bool)) (backup : Bool) (fp : FailPoint)
    (hfresh : fsGet fs (tmpName p) = none)
    (hfail : (saveCircuit fs p data vp backup fp).2 = false) :
    fsGet (saveCircuit fs p data vp backup fp).1 p = fsGet fs p ∧
    fsGet (saveCircuit fs p data vp backup fp).1 (tmpName p) = none := by
  unfold saveCircuit
  cases vp with
  | some ok =>
    by_cases hok : ok data
    · simp only [hok, if_pos]
      obtain ⟨hb1, hb2⟩ := backup_step_preserves fs p backup
      cases fp with
      | ok => simp [saveCircuit, hok, atomicWrite] at hfail
      | mkstempF => exact ⟨hb1, hb2.trans hfresh⟩
      | writeF w =>
        refine ⟨?_, ?_⟩
        · rw [atomicWrite, fsGet_fsDel_ne _ (Ne.symm (tmpName_ne p)),
            fsGet_fsSet_ne _ _ (Ne.symm (tmpName_ne p))]
          exact hb1
        · rw [atomicWrite, fsGet_fsDel_self]
      | renameF =>
        refine ⟨?_, ?_⟩
        · rw [atomicWrite, fsGet_fsDel_ne _ (Ne.symm (tmpName_ne p)),
            fsGet_fsSet_ne _ _ (Ne.symm (tmpName_ne p))]
          exact hb1
        · rw [atomicWrite, fsGet_fsDel_self]
    · simp only [hok, if_neg, Bool.false_eq_true, not_false_eq_true]
      exact ⟨trivial, hfresh⟩
  | none =>
    obtain ⟨hb1, hb2⟩ := backup_step_preserves fs p backup
    cases fp with
    | ok => simp [saveCircuit, atomicWrite] at hfail
    | mkstempF => exact ⟨hb1, hb2.trans hfresh⟩
    | writeF w =>
      refine ⟨?_, ?_⟩
      · rw [atomicWrite, fsGet_fsDel_ne _ (Ne.symm (tmpName_ne p)),
          fsGet_fsSet_ne _ _ (Ne.symm (tmpName_ne p))]
        exact hb1
      · rw [atomicWrite, fsGet_fsDel_self]
    | renameF =>
      refine ⟨?_, ?_⟩
      · rw [atomicWrite, fsGet_fsDel_ne _ (Ne.symm (tmpName_ne p)),
          fsGet_fsSet_ne _ _ (Ne.symm (tmpName_ne p))]
        exact hb1
      · rw [atomicWrite, fsGet_fsDel_self]

/-- Witness for `save_failure_preserves_target`: a rename failure over a
filesystem already holding the target. -/
theorem save_failure_preserves_target_witness :
    fsGet [("a.circuit.json", "old")] (tmpName "a.circuit.json") = none ∧
    (saveCircuit [("a.circuit.json", "old")] "a.circuit.json" JVal.null none true
      FailPoint.renameF).2 = false ∧
    fsGet (saveCircuit [("a.circuit.json", "old")] "a.circuit.json" JVal.null none true
      FailPoint.renameF).1 "a.circuit.json" =
        fsGet [("a.circuit.json", "old")] "a.circuit.json" ∧
    fsGet (saveCircuit [("a.circuit.json", "old")] "a.circuit.json" JVal.null none true
      FailPoint.renameF).1 (tmpName "a.circuit.json") = none := by
  refine ⟨by decide, by decide, ?_⟩
  exact save_failure_preserves_target [("a.circuit.json", "old")] "a.circuit.json"
    JVal.null none true FailPoint.renameF (by decide) (by decide)

/-! ## C4 — serialization round-trip: whitespace and numerals -/

/-- Skipping over the indent prefix. -/
lemma skipWs_replicate_space (n : Nat) (x : List Char) :
    skipWs (List.replicate n ' ' ++ x) = skipWs x := by
  induction n with
  | zero => rfl
  | succ m ih => simpa [skipWs, isWsChar] using ih

/-- Skipping over the indent prefix. -/
lemma skipWs_ws2 (d : Nat) (x : List Char) : skipWs (ws2 d ++ x) = skipWs x :=
  skipWs_replicate_space (2 * d) x

/-- Newlines are whitespace. -/
lemma skipWs_nl (x : List Char) : skipWs ('\n' :: x) = skipWs x := by
  simp [skipWs, isWsChar]

/-- A non-whitespace head stops the skipper. -/
lemma skipWs_not_ws {c : Char} (h : isWsChar c = false) (x : List Char) :
    skipWs (c :: x) = c :: x := by
  simp [skipWs, h]

/-- Every decimal digit emitted by `serNat` lies in `'0'..'9'`. -/
lemma serNat_digits : ∀ n : Nat, ∀ c ∈ serNat n, 48 ≤ c.toNat ∧ c.toNat ≤ 57 := by
  intro n
  induction n using Nat.strong_induction_on with
  | _ n ih =>
    intro c hc
    rw [serNat] at hc
    split at hc
    · rename_i h
      simp only [List.mem_singleton] at hc
      subst hc
      interval_cases n <;> simp_all <;> rfl
    · rename_i h
      rcases List.mem_append.mp hc with h1 | h1
      · exact ih (n / 10) (Nat.div_lt_self (by omega) (by omega)) c h1
      · simp only [List.mem_singleton] at h1
        subst h1
        have hmod : n % 10 < 10 := Nat.mod_lt _ (by omega)
        interval_cases hm : (n % 10) <;> simp_all <;> rfl

/-- `serNat` is never empty. -/
lemma serNat_ne_nil (n : Nat) : serNat n ≠ [] := by
  rw [serNat]
  split <;> simp

/-- Reading back the digits of `serNat`. -/
lemma digitsVal_serNat : ∀ n : Nat, digitsVal (serNat n) = n := by
  intro n
  induction n using Nat.strong_induction_on with
  | _ n ih =>
    rw [serNat]
    split
    · rename_i h
      simp only [digitsVal, List.foldl_cons, List.foldl_nil, Nat.zero_mul, Nat.zero_add]
      interval_cases n <;> rfl
    · rename_i h
      simp only [digitsVal, List.foldl_append, List.foldl_cons, List.foldl_nil]
      have := ih (n / 10) (Nat.div_lt_self (by omega) (by omega))
      simp only [digitsVal] at this
      rw [this]
      have hmod : n % 10 < 10 := Nat.mod_lt _ (by omega)
      have hc : (Char.ofNat (48 + n % 10)).toNat = 48 + n % 10 := by
        interval_cases hm : (n % 10) <;> rfl
      rw [hc]
      omega

/-- The leading digit of a positive numeral is not `'0'`. -/
lemma serNat_head_ne_zero : ∀ n : Nat, 1 ≤ n → (serNat n).headD 'x' ≠ '0' := by
  intro n
  induction n using Nat.strong_induction_on with
  | _ n ih =>
    intro hn
    rw [serNat]
    split
    · rename_i h
      interval_cases n <;> decide
    · rename_i h
      have hdiv : 1 ≤ n / 10 := (Nat.le_div_iff_mul_le (by omega)).mpr (by omega)
      have hh := ih (n / 10) (Nat.div_lt_self (by omega) (by omega)) hdiv
      cases hs : serNat (n / 10) with
      | nil => exact absurd hs (serNat_ne_nil _)
      | cons c t =>
        rw [hs] at hh
        simpa using hh

/-- What may legally follow a serialized value without extending it: nothing,
a comma, or a newline — exactly the continuations `json.dump` emits. -/
def Delim (rest : List Char) : Prop :=
  match rest with
  | [] => True
  | c :: _ => c = ',' ∨ c = '\n'

/-- A digit is none of the scanner's dispatch characters. -/
lemma digit_char_facts {c : Char} (h1 : 48 ≤ c.toNat) (h2 : c.toNat ≤ 57) :
    isDigitChar c = true ∧ isWsChar c = false ∧ c ≠ '-' ∧ c ≠ 'n' ∧ c ≠ 't' ∧
      c ≠ 'f' ∧ c ≠ '"' ∧ c ≠ '[' ∧ c ≠ '{' := by
  refine ⟨by simp [isDigitChar, h1, h2], ?_, ?_, ?_, ?_, ?_, ?_, ?_, ?_⟩
  · simp only [isWsChar, Bool.or_eq_false_iff, decide_eq_false_iff_not]
    refine ⟨⟨⟨?_, ?_⟩, ?_⟩, ?_⟩ <;> intro h <;> subst h <;> revert h1 h2 <;> decide
  all_goals intro h; subst h; revert h1 h2; decide

/-- `takeWhile`/`dropWhile` across a satisfying prefix and a failing head. -/
lemma takeWhile_dropWhile_append (p : Char → Bool) :
    ∀ (l : List Char) (rest : List Char), (∀ c ∈ l, p c = true) →
      (match rest with | [] => True | c :: _ => p c = false) →
      (l ++ rest).takeWhile p = l ∧ (l ++ rest).dropWhile p = rest
  | [], rest, _, hrest => by
    cases rest with
    | nil => exact ⟨rfl, rfl⟩
    | cons c t =>
      simp only [List.nil_append, List.takeWhile, List.dropWhile]
      rw [show p c = false from hrest]
      exact ⟨rfl, rfl⟩
  | c :: l, rest, hall, hrest => by
    have hc : p c = true := hall c (by simp)
    simp only [List.cons_append, List.takeWhile_cons, List.dropWhile_cons, hc, if_true]
    have := takeWhile_dropWhile_append p l rest (fun x hx => hall x (by simp [hx])) hrest
    simp [this.1, this.2]

/-- What `Delim` guarantees for the number scanner. -/
lemma delim_num_facts {rest : List Char} (h : Delim rest) :
    match rest with
    | [] => True
    | c :: _ => isDigitChar c = false ∧ c ≠ '.' ∧ c ≠ 'e' ∧ c ≠ 'E' := by
  cases rest with
  | nil => trivial
  | cons c t =>
    rcases h with h | h <;> subst h <;> exact ⟨by decide, by decide, by decide, by decide⟩

/-- The number scanner reads back exactly the numeral `repr(i)` emits. -/
lemma pNum_serInt (i : ℤ) (rest : List Char) (hrest : Delim rest) :
    pNum (serInt i ++ rest) = some (i, rest) := by
  have hfacts := delim_num_facts hrest
  have hdigits := serNat_digits i.natAbs
  have htd := takeWhile_dropWhile_append isDigitChar (serNat i.natAbs) rest
    (fun c hc => (digit_char_facts (hdigits c hc).1 (hdigits c hc).2).1)
    (by cases rest with
        | nil => trivial
        | cons c t => exact hfacts.1)
  cases hs : serNat i.natAbs with
  | nil => exact absurd hs (serNat_ne_nil _)
  | cons c0 t0 =>
    have hc0 := hdigits c0 (by rw [hs]; simp)
    have hc0' := digit_char_facts hc0.1 hc0.2
    rw [hs] at htd
    simp only [List.cons_append] at htd
    by_cases hneg : i < 0
    · have hser : serInt i = '-' :: serNat i.natAbs := by
        unfold serInt
        rw [if_pos hneg]
      rw [hser, hs]
      unfold pNum
      simp only [List.cons_append, eq_self_iff_true, if_true]
      rw [htd.1, htd.2]
      rw [if_neg (by simp : ¬ (c0 :: t0 = []))]
      have habs : 1 ≤ i.natAbs := by omega
      have hzero := serNat_head_ne_zero i.natAbs habs
      rw [hs] at hzero
      simp only [List.headD_cons] at hzero
      rw [if_neg (by rintro ⟨hlen, hhead⟩; exact hzero (by simpa using hhead))]
      have hval : digitsVal (c0 :: t0) = i.natAbs := by
        rw [← hs]; exact digitsVal_serNat i.natAbs
      have hi : -((i.natAbs : ℤ)) = i := by omega
      cases rest with
      | nil =>
        dsimp only
        rw [hval]
        rw [hi]
      | cons cr tr =>
        obtain ⟨hd, hdot, he, hE⟩ := hfacts
        dsimp only
        rw [if_neg (by rintro (h | h | h); exacts [hdot h, he h, hE h])]
        rw [hval]
        rw [hi]
    · have hser : serInt i = serNat i.natAbs := by
        unfold serInt
        rw [if_neg hneg]
      rw [hser, hs]
      unfold pNum
      simp only [List.cons_append]
      rw [if_neg hc0'.2.2.1]
      dsimp only
      rw [htd.1, htd.2]
      rw [if_neg (by simp : ¬ (c0 :: t0 = []))]
      have hzcheck : ¬ (1 < (c0 :: t0).length ∧ (c0 :: t0).headD 'x' = '0') := by
        rintro ⟨hlen, hhead⟩
        have habs : 1 ≤ i.natAbs := by
          by_contra habs0
          have h0 : i.natAbs = 0 := by omega
          rw [h0, serNat] at hs
          rw [if_pos (by omega : (0 : Nat) < 10)] at hs
          cases hs
          simp at hlen
        have hzero := serNat_head_ne_zero i.natAbs habs
        rw [hs] at hzero
        exact hzero (by simpa using hhead)
      rw [if_neg hzcheck]
      have hval : digitsVal (c0 :: t0) = i.natAbs := by
        rw [← hs]; exact digitsVal_serNat i.natAbs
      have hi : ((i.natAbs : ℤ)) = i := by omega
      cases rest with
      | nil =>
        dsimp only
        rw [hval]
        simp only [eq_self_iff_true, if_true, Bool.false_eq_true, if_false]
        rw [hi]
      | cons cr tr =>
        obtain ⟨hd, hdot, he, hE⟩ := hfacts
        dsimp only
        rw [if_neg (by rintro (h | h | h); exacts [hdot h, he h, hE h])]
        rw [hval]
        simp only [eq_self_iff_true, if_true, Bool.false_eq_true, if_false]
        rw [hi]

/-- `hexVal` inverts `hexDigitChar` on one nibble. -/
lemma hexVal_hexDigitChar (m : Nat) (h : m < 16) :
    hexVal (hexDigitChar m) = some m := by
  interval_cases m <;> decide

/-- The string scanner decodes exactly what the encoder escaped. -/
lemma pString_escString : ∀ (s rest : List Char),
    pString (escString s ++ ('"' :: rest)) = some (s, rest)
  | [], rest => by
    show pString ([].flatMap escChar ++ ('"' :: rest)) = some ([], rest)
    rw [List.flatMap_nil, List.nil_append]
    unfold pString
    simp +decide
  | c :: cs, rest => by
    have ih := pString_escString cs rest
    have hdec : escString (c :: cs) ++ ('"' :: rest) =
        escChar c ++ (escString cs ++ ('"' :: rest)) := by
      simp [escString, List.flatMap_cons, List.append_assoc]
    rw [hdec]
    by_cases h1 : c = '"'
    · subst h1
      rw [show escChar '"' = ['\\', '"'] from rfl]
      rw [List.cons_append, List.cons_append, List.nil_append]
      unfold pString
      simp +decide [ih]
    by_cases h2 : c = '\\'
    · subst h2
      rw [show escChar '\\' = ['\\', '\\'] from rfl]
      rw [List.cons_append, List.cons_append, List.nil_append]
      unfold pString
      simp +decide [ih]
    by_cases h3 : c = '\x08'
    · subst h3
      rw [show escChar '\x08' = ['\\', 'b'] from rfl]
      rw [List.cons_append, List.cons_append, List.nil_append]
      unfold pString
      simp +decide [ih]
    by_cases h4 : c = '\x0c'
    · subst h4
      rw [show escChar '\x0c' = ['\\', 'f'] from rfl]
      rw [List.cons_append, List.cons_append, List.nil_append]
      unfold pString
      simp +decide [ih]
    by_cases h5 : c = '\n'
    · subst h5
      rw [show escChar '\n' = ['\\', 'n'] from rfl]
      rw [List.cons_append, List.cons_append, List.nil_append]
      unfold pString
      simp +decide [ih]
    by_cases h6 : c = '\r'
    · subst h6
      rw [show escChar '\r' = ['\\', 'r'] from rfl]
      rw [List.cons_append, List.cons_append, List.nil_append]
      unfold pString
      simp +decide [ih]
    by_cases h7 : c = '\t'
    · subst h7
      rw [show escChar '\t' = ['\\', 't'] from rfl]
      rw [List.cons_append, List.cons_append, List.nil_append]
      unfold pString
      simp +decide [ih]
    by_cases h8 : c.toNat < 32
    · have hesc : escChar c = ['\\', 'u', '0', '0',
          hexDigitChar (c.toNat / 16), hexDigitChar (c.toNat % 16)] := by
        unfold escChar
        rw [if_neg h1, if_neg h2, if_neg h3, if_neg h4, if_neg h5, if_neg h6,
          if_neg h7, if_pos h8]
      rw [hesc]
      simp only [List.cons_append, List.nil_append]
      unfold pString
      have hv1 := hexVal_hexDigitChar (c.toNat / 16) (by omega)
      have hv2 := hexVal_hexDigitChar (c.toNat % 16) (by omega)
      have harg : ((0 * 16 + 0) * 16 + c.toNat / 16) * 16 + c.toNat % 16 = c.toNat := by
        omega
      simp +decide [hv1, hv2]
      rw [show hexVal '0' = some 0 from rfl]
      simp +decide [harg, Char.ofNat_toNat, ih]
      rw [show c.toNat / 16 * 16 + c.toNat % 16 = c.toNat by omega, Char.ofNat_toNat]
    · have hesc : escChar c = [c] := by
        unfold escChar
        rw [if_neg h1, if_neg h2, if_neg h3, if_neg h4, if_neg h5, if_neg h6,
          if_neg h7, if_neg h8]
      rw [hesc]
      simp only [List.cons_append, List.nil_append]
      unfold pString
      rw [if_neg h1, if_neg h2, if_neg (by omega : ¬ c.toNat < 32), ih]
      rfl

mutual

/-- Fuel needed by the scanner to read a serialized value. -/
def sizeJ : JVal → Nat
  | .null => 1
  | .boolean _ => 1
  | .num _ => 1
  | .str _ => 1
  | .arr l => 2 + sizeArrJ l
  | .obj l => 2 + sizeObjJ l

/-- Fuel needed for the items of an array. -/
def sizeArrJ : List JVal → Nat
  | [] => 0
  | v :: vs => sizeJ v + sizeArrJ vs

/-- Fuel needed for the members of an object. -/
def sizeObjJ : List (String × JVal) → Nat
  | [] => 0
  | (_, v) :: es => sizeJ v + sizeObjJ es

end

/-- Every value's size is at least one. -/
lemma sizeJ_pos (v : JVal) : 1 ≤ sizeJ v := by
  cases v <;> simp [sizeJ] <;> omega

/-- The scanner accepts `ser v d ++ rest` whenever the fuel covers `sizeJ v`
and `rest` opens with a serializer-emitted delimiter. -/
def SerParses (v : JVal) : Prop :=
  ∀ (fuel d : Nat) (rest : List Char), sizeJ v ≤ fuel → Delim rest →
    pVal fuel (ser v d ++ rest) = some (v, rest)

/-- The first character of a serialized value: never whitespace, never a
closing bracket. -/
lemma ser_head (v : JVal) (d : Nat) :
    ∃ c t, ser v d = c :: t ∧ isWsChar c = false ∧ c ≠ ']' ∧ c ≠ '}' := by
  cases v with
  | null => exact ⟨'n', _, rfl, by decide, by decide, by decide⟩
  | boolean b =>
    cases b with
    | true =>
      refine ⟨'t', _, rfl, ?_, ?_, ?_⟩ <;> decide
    | false => exact ⟨'f', _, rfl, by decide, by decide, by decide⟩
  | num i =>
    by_cases hneg : i < 0
    · refine ⟨'-', serNat i.natAbs, ?_, by decide, by decide, by decide⟩
      unfold ser serInt
      rw [if_pos hneg]
    · cases hs : serNat i.natAbs with
      | nil => exact absurd hs (serNat_ne_nil _)
      | cons c t =>
        have hc := serNat_digits i.natAbs c (by rw [hs]; simp)
        have hf := digit_char_facts hc.1 hc.2
        refine ⟨c, t, ?_, hf.2.1, ?_, ?_⟩
        · unfold ser serInt
          rw [if_neg hneg, hs]
        · intro h; subst h; revert hc; decide
        · intro h; subst h; revert hc; decide
  | str s => exact ⟨'"', _, rfl, by decide, by decide, by decide⟩
  | arr l =>
    cases l with
    | nil => exact ⟨'[', _, rfl, by decide, by decide, by decide⟩
    | cons v vs => exact ⟨'[', _, rfl, by decide, by decide, by decide⟩
  | obj l =>
    cases l with
    | nil => exact ⟨'{', _, rfl, by decide, by decide, by decide⟩
    | cons e es => exact ⟨'{', _, rfl, by decide, by decide, by decide⟩

/-- Leading whitespace never changes a scan. -/
lemma pVal_skipWs_congr (fuel : Nat) {x y : List Char} (h : skipWs x = skipWs y) :
    pVal fuel x = pVal fuel y := by
  cases fuel with
  | zero => unfold pVal; rfl
  | succ f => unfold pVal; rw [h]

/-- `skipWs` is idempotent on a cons with whitespace head. -/
lemma skipWs_cons_ws {c : Char} (hc : isWsChar c = true) (x : List Char) :
    skipWs (c :: x) = skipWs x := by
  simp [skipWs, hc]

/-- Dropping a whitespace head before an array-items scan. -/
lemma pArrItems_cons_ws (fuel : Nat) {c : Char} (hc : isWsChar c = true)
    (x : List Char) : pArrItems fuel (c :: x) = pArrItems fuel x := by
  cases fuel with
  | zero => unfold pArrItems; rfl
  | succ f =>
    unfold pArrItems
    rw [pVal_skipWs_congr (f + 1) (skipWs_cons_ws hc x)]

/-- Dropping a whitespace head before an object-members scan. -/
lemma pObjItems_cons_ws (fuel : Nat) {c : Char} (hc : isWsChar c = true)
    (x : List Char) : pObjItems fuel (c :: x) = pObjItems fuel x := by
  cases fuel with
  | zero => unfold pObjItems; rfl
  | succ f =>
    unfold pObjItems
    rw [skipWs_cons_ws hc x]

/-- Dropping an indent prefix before an array-items scan. -/
lemma pArrItems_ws2 (fuel : Nat) (n : Nat) (x : List Char) :
    pArrItems fuel (List.replicate n ' ' ++ x) = pArrItems fuel x := by
  induction n with
  | zero => rfl
  | succ m ih =>
    rw [List.replicate_succ, List.cons_append, pArrItems_cons_ws fuel (by decide)]
    exact ih

/-- Dropping an indent prefix before an object-members scan. -/
lemma pObjItems_ws2 (fuel : Nat) (n : Nat) (x : List Char) :
    pObjItems fuel (List.replicate n ' ' ++ x) = pObjItems fuel x := by
  induction n with
  | zero => rfl
  | succ m ih =>
    rw [List.replicate_succ, List.cons_append, pObjItems_cons_ws fuel (by decide)]
    exact ih

/-- `goodKeys` descends into array items. -/
lemma goodKeysList_mem {l : List JVal} (h : goodKeysList l = true) :
    ∀ v ∈ l, goodKeys v = true := by
  induction l with
  | nil => intro v hv; cases hv
  | cons a t ih =>
    rw [goodKeysList, Bool.and_eq_true] at h
    intro v hv
    rcases List.mem_cons.mp hv with rfl | hv
    · exact h.1
    · exact ih h.2 v hv

/-- `goodKeys` descends into object members. -/
lemma goodKeysPairs_mem {l : List (String × JVal)} (h : goodKeysPairs l = true) :
    ∀ e ∈ l, goodKeys e.2 = true := by
  induction l with
  | nil => intro e he; cases he
  | cons a t ih =>
    intro e he
    cases a with
    | mk k v =>
      rw [goodKeysPairs, Bool.and_eq_true] at h
      rcases List.mem_cons.mp he with rfl | he
      · exact h.1
      · exact ih h.2 e he

/-- `dict(pairs)` is the identity on pair lists with distinct keys. -/
lemma pyDictPairs_eq_self {l : List (String × JVal)}
    (h : (l.map Prod.fst).Nodup) : pyDictPairs l = l := by
  suffices haux : ∀ (l : List (String × JVal)) (acc : List (String × JVal)),
      (l.map Prod.fst).Nodup →
      (∀ k, k ∈ l.map Prod.fst → ¬ k ∈ acc.map Prod.fst) →
      l.foldl (fun m p => pyUpsert m p.1 p.2) acc = acc ++ l by
    simpa using haux l [] h (by simp)
  intro l
  induction l with
  | nil => intro acc _ _; simp
  | cons e t ih =>
    intro acc hnd hdisj
    simp only [List.map_cons, List.nodup_cons] at hnd
    have hnotacc : ¬ e.1 ∈ acc.map Prod.fst := hdisj e.1 (by simp)
    have hupsert : pyUpsert acc e.1 e.2 = acc ++ [e] := by
      unfold pyUpsert
      rw [if_neg]
      intro hany
      rw [List.any_eq_true] at hany
      obtain ⟨p, hp, hpk⟩ := hany
      exact hnotacc (List.mem_map.mpr ⟨p, hp, by simpa using hpk⟩)
    simp only [List.foldl_cons, hupsert]
    rw [ih (acc ++ [e]) hnd.2]
    · simp
    · intro k hk
      rw [List.map_append, List.mem_append]
      rintro (h1 | h1)
      · exact hdisj k (by simp [hk]) h1
      · simp only [List.map_cons, List.map_nil, List.mem_singleton] at h1
        subst h1
        exact hnd.1 hk

/-- `ws2` indent skipping for array items. -/
lemma pArrItems_ws2' (fuel d : Nat) (x : List Char) :
    pArrItems fuel (ws2 d ++ x) = pArrItems fuel x :=
  pArrItems_ws2 fuel (2 * d) x

/-- `ws2` indent skipping for object members. -/
lemma pObjItems_ws2' (fuel d : Nat) (x : List Char) :
    pObjItems fuel (ws2 d ++ x) = pObjItems fuel x :=
  pObjItems_ws2 fuel (2 * d) x

/-- Skipping the newline-indent sequence before a closing bracket. -/
lemma skipWs_close (e : Nat) (c : Char) (hc : isWsChar c = false) (rest : List Char) :
    skipWs ('\n' :: (ws2 e ++ (c :: rest))) = c :: rest := by
  rw [skipWs_nl, skipWs_ws2, skipWs_not_ws hc]

/-- Unfolding equation for `ser` (the mutual recursion hides the equations). -/
lemma ser_arr_cons (v : JVal) (vs : List JVal) (d : Nat) :
    ser (.arr (v :: vs)) d =
      '[' :: '\n' :: (serArrItems (v :: vs) (d + 1) ++ '\n' :: (ws2 d ++ [']'])) := by
  rw [ser.eq_def]

/-- Unfolding equation for `ser` on non-empty objects. -/
lemma ser_obj_cons (e : String × JVal) (es : List (String × JVal)) (d : Nat) :
    ser (.obj (e :: es)) d =
      '{' :: '\n' :: (serObjItems (e :: es) (d + 1) ++ '\n' :: (ws2 d ++ ['}'])) := by
  rw [ser.eq_def]

/-- Unfolding equation for `serArrItems` on a singleton. -/
lemma serArrItems_single (v : JVal) (d : Nat) :
    serArrItems [v] d = ws2 d ++ ser v d := by
  rw [serArrItems.eq_def]

/-- Unfolding equation for `serArrItems` on two or more items. -/
lemma serArrItems_cons₂ (v v' : JVal) (vs : List JVal) (d : Nat) :
    serArrItems (v :: v' :: vs) d =
      ws2 d ++ ser v d ++ ',' :: '\n' :: serArrItems (v' :: vs) d := by
  rw [serArrItems.eq_def]

/-- Unfolding equation for `serObjItems` on a singleton. -/
lemma serObjItems_single (k : String) (v : JVal) (d : Nat) :
    serObjItems [(k, v)] d =
      ws2 d ++ '"' :: (escString k.toList ++ '"' :: ':' :: ' ' :: ser v d) := by
  rw [serObjItems.eq_def]

/-- Unfolding equation for `serObjItems` on two or more members. -/
lemma serObjItems_cons₂ (k : String) (v : JVal) (e : String × JVal)
    (es : List (String × JVal)) (d : Nat) :
    serObjItems ((k, v) :: e :: es) d =
      ws2 d ++ '"' :: (escString k.toList ++ '"' :: ':' :: ' ' :: ser v d) ++
        ',' :: '\n' :: serObjItems (e :: es) d := by
  rw [serObjItems.eq_def]

/-- Unfolding equation for `sizeArrJ`. -/
lemma sizeArrJ_cons (v : JVal) (vs : List JVal) :
    sizeArrJ (v :: vs) = sizeJ v + sizeArrJ vs := by
  rw [sizeArrJ.eq_def]

/-- Unfolding equation for `sizeObjJ`. -/
lemma sizeObjJ_cons (e : String × JVal) (es : List (String × JVal)) :
    sizeObjJ (e :: es) = sizeJ e.2 + sizeObjJ es := by
  rw [sizeObjJ.eq_def]

/-- The items scanner reads back a non-empty serialized item list. -/
lemma pArrItems_ser : ∀ (l : List JVal) (d e fuel : Nat) (rest : List Char),
    (∀ u ∈ l, SerParses u) → l ≠ [] → sizeArrJ l + 1 ≤ fuel →
    pArrItems fuel (serArrItems l d ++ ('\n' :: (ws2 e ++ (']' :: rest)))) =
      some (l, rest)
  | [], _, _, _, _ => by
    intro _ hne _
    exact absurd rfl hne
  | [v], d, e, fuel, rest => by
    intro hP _ hfuel
    have hszv : 1 ≤ sizeJ v := sizeJ_pos v
    rw [sizeArrJ_cons] at hfuel
    rw [serArrItems_single]
    cases fuel with
    | zero => omega
    | succ f =>
      rw [List.append_assoc, pArrItems_ws2']
      unfold pArrItems
      rw [hP v (by simp) (f + 1) d ('\n' :: (ws2 e ++ (']' :: rest)))
        (by omega) (Or.inr rfl)]
      dsimp only
      rw [skipWs_close e ']' (by decide) rest]
      simp +decide
  | v :: v' :: vs, d, e, fuel, rest => by
    intro hP _ hfuel
    have hszv : 1 ≤ sizeJ v := sizeJ_pos v
    rw [sizeArrJ_cons] at hfuel
    rw [serArrItems_cons₂]
    cases fuel with
    | zero => omega
    | succ f =>
      simp only [List.append_assoc, List.cons_append]
      rw [pArrItems_ws2']
      unfold pArrItems
      rw [hP v (by simp) (f + 1) d
        (',' :: '\n' :: (serArrItems (v' :: vs) d ++ ('\n' :: (ws2 e ++ (']' :: rest)))))
        (by omega) (Or.inl rfl)]
      dsimp only
      rw [skipWs_not_ws (by decide) _]
      dsimp only
      rw [if_pos (rfl : (',' : Char) = ',')]
      rw [pArrItems_cons_ws f (by decide)]
      rw [pArrItems_ser (v' :: vs) d e f rest
        (fun u hu => hP u (List.mem_cons_of_mem _ hu)) (by simp)
        (by omega)]
      rfl

/-- Rebuilding a string from its character list. -/
lemma string_mk_toList (s : String) : (⟨s.toList⟩ : String) = s := rfl

/-- The members scanner reads back a non-empty serialized member list. -/
lemma pObjItems_ser : ∀ (l : List (String × JVal)) (d e fuel : Nat) (rest : List Char),
    (∀ u ∈ l, SerParses u.2) → l ≠ [] → sizeObjJ l + 1 ≤ fuel →
    pObjItems fuel (serObjItems l d ++ ('\n' :: (ws2 e ++ ('}' :: rest)))) =
      some (l, rest)
  | [], _, _, _, _ => by
    intro _ hne _
    exact absurd rfl hne
  | [(k, v)], d, e, fuel, rest => by
    intro hP _ hfuel
    have hszv : 1 ≤ sizeJ v := sizeJ_pos v
    rw [sizeObjJ_cons] at hfuel
    rw [serObjItems_single]
    cases fuel with
    | zero => omega
    | succ f =>
      simp only [List.append_assoc, List.cons_append]
      rw [pObjItems_ws2']
      unfold pObjItems
      rw [skipWs_not_ws (by decide) _]
      dsimp only
      rw [if_pos (rfl : ('"' : Char) = '"')]
      rw [pString_escString k.toList (':' :: ' ' :: (ser v d ++ ('\n' :: (ws2 e ++ ('}' :: rest)))))]
      dsimp only
      rw [skipWs_not_ws (by decide) _]
      dsimp only
      rw [if_pos (rfl : (':' : Char) = ':')]
      rw [pVal_skipWs_congr (f + 1) (skipWs_cons_ws (by decide) _)]
      rw [hP (k, v) (by simp) (f + 1) d ('\n' :: (ws2 e ++ ('}' :: rest)))
        (by simp only [sizeObjJ] at hfuel ⊢; omega) (Or.inr rfl)]
      dsimp only
      rw [skipWs_close e '}' (by decide) rest]
      dsimp only
      rw [if_neg (by decide : ¬ ('}' : Char) = ','), if_pos (rfl : ('}' : Char) = '}')]
      rw [string_mk_toList]
  | (k, v) :: e' :: es, d, e, fuel, rest => by
    intro hP _ hfuel
    have hszv : 1 ≤ sizeJ v := sizeJ_pos v
    rw [sizeObjJ_cons] at hfuel
    dsimp only at hfuel
    rw [serObjItems_cons₂]
    cases fuel with
    | zero => omega
    | succ f =>
      simp only [List.append_assoc, List.cons_append]
      rw [pObjItems_ws2']
      unfold pObjItems
      rw [skipWs_not_ws (by decide) _]
      dsimp only
      rw [if_pos (rfl : ('"' : Char) = '"')]
      rw [pString_escString k.toList
        (':' :: ' ' :: (ser v d ++ (',' :: '\n' ::
          (serObjItems (e' :: es) d ++ ('\n' :: (ws2 e ++ ('}' :: rest)))))))]
      dsimp only
      rw [skipWs_not_ws (by decide) _]
      dsimp only
      rw [if_pos (rfl : (':' : Char) = ':')]
      rw [pVal_skipWs_congr (f + 1) (skipWs_cons_ws (by decide) _)]
      rw [hP (k, v) (by simp) (f + 1) d
        (',' :: '\n' :: (serObjItems (e' :: es) d ++ ('\n' :: (ws2 e ++ ('}' :: rest)))))
        (by dsimp only; omega) (Or.inl rfl)]
      dsimp only
      rw [skipWs_not_ws (by decide) _]
      dsimp only
      rw [if_pos (rfl : (',' : Char) = ',')]
      rw [pObjItems_cons_ws f (by decide)]
      rw [pObjItems_ser (e' :: es) d e f rest
        (fun u hu => hP u (List.mem_cons_of_mem _ hu)) (by simp)
        (by omega)]
      rw [string_mk_toList]
      rfl

/-- Unfolding equations for `sizeJ` and `goodKeys` (hidden by the mutual
blocks). -/
lemma sizeJ_arr (l : List JVal) : sizeJ (.arr l) = 2 + sizeArrJ l := by
  rw [sizeJ.eq_def]

/-- Unfolding equation for `sizeJ` on objects. -/
lemma sizeJ_obj (l : List (String × JVal)) : sizeJ (.obj l) = 2 + sizeObjJ l := by
  rw [sizeJ.eq_def]

/-- Unfolding equation for `goodKeys` on arrays. -/
lemma goodKeys_arr (l : List JVal) : goodKeys (.arr l) = goodKeysList l := by
  rw [goodKeys.eq_def]

/-- Unfolding equation for `goodKeys` on objects. -/
lemma goodKeys_obj (l : List (String × JVal)) :
    goodKeys (.obj l) = (decide ((l.map Prod.fst).Nodup) && goodKeysPairs l) := by
  rw [goodKeys.eq_def]

/-- An array item consumes no more fuel than the whole item list. -/
lemma sizeArrJ_mem {l : List JVal} (u : JVal) (hu : u ∈ l) :
    sizeJ u ≤ sizeArrJ l := by
  induction l with
  | nil => cases hu
  | cons v vs ih =>
    rw [sizeArrJ_cons]
    rcases List.mem_cons.mp hu with rfl | hu
    · omega
    · have := ih hu
      omega

/-- An object member consumes no more fuel than the whole member list. -/
lemma sizeObjJ_mem {l : List (String × JVal)} (u : String × JVal) (hu : u ∈ l) :
    sizeJ u.2 ≤ sizeObjJ l := by
  induction l with
  | nil => cases hu
  | cons e es ih =>
    rw [sizeObjJ_cons]
    rcases List.mem_cons.mp hu with rfl | hu
    · omega
    · have := ih hu
      omega

/-- The head of a serialized non-empty item list (after whitespace) is never
a closing bracket. -/
lemma skipWs_serArrItems (l : List JVal) (hl : l ≠ []) (d : Nat) (x : List Char) :
    ∃ c t, skipWs (serArrItems l d ++ x) = c :: t ∧ c ≠ ']' ∧ c ≠ '}' := by
  obtain ⟨v, vs, rfl⟩ : ∃ v vs, l = v :: vs := by
    cases l with
    | nil => exact absurd rfl hl
    | cons v vs => exact ⟨v, vs, rfl⟩
  obtain ⟨c, t, hser, hws, hb1, hb2⟩ := ser_head v d
  cases vs with
  | nil =>
    rw [serArrItems_single, List.append_assoc, skipWs_ws2, hser, List.cons_append,
      skipWs_not_ws hws]
    exact ⟨c, _, rfl, hb1, hb2⟩
  | cons v' vs' =>
    rw [serArrItems_cons₂]
    rw [show ws2 d ++ ser v d ++ ',' :: '\n' :: serArrItems (v' :: vs') d ++ x =
      ws2 d ++ (ser v d ++ (',' :: '\n' :: serArrItems (v' :: vs') d ++ x)) by
        simp [List.append_assoc]]
    rw [skipWs_ws2, hser, List.cons_append, skipWs_not_ws hws]
    exact ⟨c, _, rfl, hb1, hb2⟩

/-- The head of a serialized non-empty member list (after whitespace) is the
opening quote. -/
lemma skipWs_serObjItems (l : List (String × JVal)) (hl : l ≠ []) (d : Nat)
    (x : List Char) :
    ∃ t, skipWs (serObjItems l d ++ x) = '"' :: t := by
  obtain ⟨e, es, rfl⟩ : ∃ e es, l = e :: es := by
    cases l with
    | nil => exact absurd rfl hl
    | cons e es => exact ⟨e, es, rfl⟩
  obtain ⟨k, v⟩ := e
  cases es with
  | nil =>
    rw [serObjItems_single, List.append_assoc, skipWs_ws2, List.cons_append,
      skipWs_not_ws (by decide)]
    exact ⟨_, rfl⟩
  | cons e' es' =>
    rw [serObjItems_cons₂]
    rw [show ws2 d ++ '"' :: (escString k.toList ++ '"' :: ':' :: ' ' :: ser v d) ++
        ',' :: '\n' :: serObjItems (e' :: es') d ++ x =
      ws2 d ++ ('"' :: ((escString k.toList ++ '"' :: ':' :: ' ' :: ser v d) ++
        (',' :: '\n' :: serObjItems (e' :: es') d ++ x))) by
        simp [List.append_assoc]]
    rw [skipWs_ws2, skipWs_not_ws (by decide)]
    exact ⟨_, rfl⟩

/-- Every well-keyed value round-trips through the scanner, by strong
induction on its size. -/
lemma serParses_of_size : ∀ (n : Nat) (v : JVal), sizeJ v ≤ n →
    goodKeys v = true → SerParses v := by
  intro n
  induction n using Nat.strong_induction_on with
  | _ n ih =>
    intro v hsz hgk fuel d rest hfuel hrest
    have hpos := sizeJ_pos v
    cases fuel with
    | zero => omega
    | succ f =>
      unfold pVal
      cases v with
      | null =>
        rw [show ser .null d = ['n', 'u', 'l', 'l'] by rw [ser.eq_def]]
        simp only [List.cons_append, List.nil_append]
        rw [skipWs_not_ws (by decide)]
        unfold pValGo
        simp +decide [List.isPrefixOf]
      | boolean b =>
        cases b with
        | true =>
          rw [show ser (.boolean true) d = ['t', 'r', 'u', 'e'] by rw [ser.eq_def]]
          simp only [List.cons_append, List.nil_append]
          rw [skipWs_not_ws (by decide)]
          unfold pValGo
          simp +decide [List.isPrefixOf]
        | false =>
          rw [show ser (.boolean false) d = ['f', 'a', 'l', 's', 'e'] by rw [ser.eq_def]]
          simp only [List.cons_append, List.nil_append]
          rw [skipWs_not_ws (by decide)]
          unfold pValGo
          simp +decide [List.isPrefixOf]
      | num i =>
        rw [show ser (.num i) d = serInt i by rw [ser.eq_def]]
        by_cases hneg : i < 0
        · rw [show serInt i = '-' :: serNat i.natAbs by unfold serInt; rw [if_pos hneg]]
          simp only [List.cons_append]
          rw [skipWs_not_ws (by decide)]
          unfold pValGo
          rw [if_neg (by decide : ¬ ('-' : Char) = 'n'),
            if_neg (by decide : ¬ ('-' : Char) = 't'),
            if_neg (by decide : ¬ ('-' : Char) = 'f'),
            if_neg (by decide : ¬ ('-' : Char) = '"'),
            if_neg (by decide : ¬ ('-' : Char) = '['),
            if_neg (by decide : ¬ ('-' : Char) = '{'),
            if_pos (Or.inl rfl : ('-' : Char) = '-' ∨ isDigitChar '-' = true)]
          rw [show '-' :: (serNat i.natAbs ++ rest) = serInt i ++ rest by
            unfold serInt; rw [if_pos hneg]; simp]
          rw [pNum_serInt i rest hrest]
          rfl
        · rw [show serInt i = serNat i.natAbs by unfold serInt; rw [if_neg hneg]]
          cases hs : serNat i.natAbs with
          | nil => exact absurd hs (serNat_ne_nil _)
          | cons c0 t0 =>
            have hc0 := serNat_digits i.natAbs c0 (by rw [hs]; simp)
            have hf := digit_char_facts hc0.1 hc0.2
            simp only [List.cons_append]
            rw [skipWs_not_ws hf.2.1]
            unfold pValGo
            rw [if_neg hf.2.2.2.1, if_neg hf.2.2.2.2.1, if_neg hf.2.2.2.2.2.1,
              if_neg hf.2.2.2.2.2.2.1, if_neg hf.2.2.2.2.2.2.2.1,
              if_neg hf.2.2.2.2.2.2.2.2,
              if_pos (Or.inr hf.1 : c0 = '-' ∨ isDigitChar c0 = true)]
            rw [show c0 :: (t0 ++ rest) = serInt i ++ rest by
              unfold serInt; rw [if_neg hneg, hs]; simp]
            rw [pNum_serInt i rest hrest]
            rfl
      | str s =>
        rw [show ser (.str s) d = '"' :: (escString s.toList ++ ['"']) by rw [ser.eq_def]]
        simp only [List.cons_append, List.append_assoc, List.nil_append]
        rw [skipWs_not_ws (by decide)]
        unfold pValGo
        rw [if_neg (by decide : ¬ ('"' : Char) = 'n'),
          if_neg (by decide : ¬ ('"' : Char) = 't'),
          if_neg (by decide : ¬ ('"' : Char) = 'f'),
          if_pos (rfl : ('"' : Char) = '"')]
        rw [pString_escString s.toList rest]
        rfl
      | arr l =>
        cases l with
        | nil =>
          rw [show ser (.arr []) d = ['[', ']'] by rw [ser.eq_def]]
          simp only [List.cons_append, List.nil_append]
          rw [skipWs_not_ws (by decide)]
          unfold pValGo
          rw [if_neg (by decide : ¬ ('[' : Char) = 'n'),
            if_neg (by decide : ¬ ('[' : Char) = 't'),
            if_neg (by decide : ¬ ('[' : Char) = 'f'),
            if_neg (by decide : ¬ ('[' : Char) = '"'),
            if_pos (rfl : ('[' : Char) = '[')]
          unfold pArr
          rw [skipWs_not_ws (by decide)]
          dsimp only
          rw [if_pos (rfl : (']' : Char) = ']')]
        | cons v1 vs =>
          rw [ser_arr_cons]
          rw [sizeJ_arr] at hsz hfuel
          rw [goodKeys_arr] at hgk
          have hP : ∀ u ∈ v1 :: vs, SerParses u :=
            fun u hu => ih (sizeJ u)
              (lt_of_le_of_lt (sizeArrJ_mem u hu) (by omega)) u le_rfl
              (goodKeysList_mem hgk u hu)
          simp only [List.cons_append, List.append_assoc, List.nil_append]
          rw [skipWs_not_ws (by decide)]
          unfold pValGo
          rw [if_neg (by decide : ¬ ('[' : Char) = 'n'),
            if_neg (by decide : ¬ ('[' : Char) = 't'),
            if_neg (by decide : ¬ ('[' : Char) = 'f'),
            if_neg (by decide : ¬ ('[' : Char) = '"'),
            if_pos (rfl : ('[' : Char) = '[')]
          unfold pArr
          rw [skipWs_nl]
          obtain ⟨c, t, hct, hne1, hne2⟩ :=
            skipWs_serArrItems (v1 :: vs) (by simp) (d + 1)
              ('\n' :: (ws2 d ++ (']' :: rest)))
          rw [hct]
          dsimp only
          rw [if_neg hne1]
          rw [pArrItems_cons_ws f (by decide)]
          rw [pArrItems_ser (v1 :: vs) (d + 1) d f rest hP (by simp) (by omega)]
          rfl
      | obj l =>
        cases l with
        | nil =>
          rw [show ser (.obj []) d = ['{', '}'] by rw [ser.eq_def]]
          simp only [List.cons_append, List.nil_append]
          rw [skipWs_not_ws (by decide)]
          unfold pValGo
          rw [if_neg (by decide : ¬ ('{' : Char) = 'n'),
            if_neg (by decide : ¬ ('{' : Char) = 't'),
            if_neg (by decide : ¬ ('{' : Char) = 'f'),
            if_neg (by decide : ¬ ('{' : Char) = '"'),
            if_neg (by decide : ¬ ('{' : Char) = '['),
            if_pos (rfl : ('{' : Char) = '{')]
          unfold pObj
          rw [skipWs_not_ws (by decide)]
          dsimp only
          rw [if_pos (rfl : ('}' : Char) = '}')]
        | cons e1 es =>
          rw [ser_obj_cons]
          rw [sizeJ_obj] at hsz hfuel
          rw [goodKeys_obj, Bool.and_eq_true, decide_eq_true_eq] at hgk
          have hP : ∀ u ∈ e1 :: es, SerParses u.2 :=
            fun u hu => ih (sizeJ u.2)
              (lt_of_le_of_lt (sizeObjJ_mem u hu) (by omega)) u.2 le_rfl
              (goodKeysPairs_mem hgk.2 u hu)
          simp only [List.cons_append, List.append_assoc, List.nil_append]
          rw [skipWs_not_ws (by decide)]
          unfold pValGo
          rw [if_neg (by decide : ¬ ('{' : Char) = 'n'),
            if_neg (by decide : ¬ ('{' : Char) = 't'),
            if_neg (by decide : ¬ ('{' : Char) = 'f'),
            if_neg (by decide : ¬ ('{' : Char) = '"'),
            if_neg (by decide : ¬ ('{' : Char) = '['),
            if_pos (rfl : ('{' : Char) = '{')]
          unfold pObj
          rw [skipWs_nl]
          obtain ⟨t, hct⟩ :=
            skipWs_serObjItems (e1 :: es) (by simp) (d + 1)
              ('\n' :: (ws2 d ++ ('}' :: rest)))
          rw [hct]
          dsimp only
          rw [if_neg (by decide : ¬ ('"' : Char) = '}')]
          rw [pObjItems_cons_ws f (by decide)]
          rw [pObjItems_ser (e1 :: es) (d + 1) d f rest hP (by simp) (by omega)]
          simp only [Option.map_some']
          rw [pyDictPairs_eq_self hgk.1]

/-- A serialized value is at least as long as the fuel it needs. -/
lemma sizeJ_le_ser_length : ∀ (n : Nat) (v : JVal), sizeJ v ≤ n →
    ∀ d, sizeJ v ≤ (ser v d).length := by
  intro n
  induction n using Nat.strong_induction_on with
  | _ n ih =>
    intro v _hsz d
    cases v with
    | null =>
      rw [show ser .null d = ['n', 'u', 'l', 'l'] by rw [ser.eq_def]]
      simp [sizeJ]
    | boolean b =>
      cases b with
      | true =>
        rw [show ser (.boolean true) d = ['t', 'r', 'u', 'e'] by rw [ser.eq_def]]
        simp [sizeJ]
      | false =>
        rw [show ser (.boolean false) d = ['f', 'a', 'l', 's', 'e'] by rw [ser.eq_def]]
        simp [sizeJ]
    | num i =>
      rw [show ser (.num i) d = serInt i by rw [ser.eq_def]]
      have h1 : serInt i ≠ [] := by
        unfold serInt
        split
        · simp
        · exact serNat_ne_nil _
      have h2 : 0 < (serInt i).length := List.length_pos.mpr h1
      simp only [sizeJ]
      omega
    | str s =>
      rw [show ser (.str s) d = '"' :: (escString s.toList ++ ['"']) by rw [ser.eq_def]]
      simp [sizeJ]
    | arr l =>
      cases l with
      | nil =>
        rw [show ser (.arr []) d = ['[', ']'] by rw [ser.eq_def]]
        simp [sizeJ, sizeArrJ]
      | cons v1 vs =>
        have hmem : ∀ u ∈ v1 :: vs, sizeJ u ≤ (ser u (d + 1)).length := by
          intro u hu
          have h1 : sizeJ u ≤ sizeArrJ (v1 :: vs) := sizeArrJ_mem u hu
          have h2 : sizeJ (.arr (v1 :: vs)) ≤ n := _hsz
          rw [sizeJ_arr] at h2
          exact ih (sizeJ u) (by omega) u le_rfl (d + 1)
        have hlist : ∀ (l' : List JVal),
            (∀ u ∈ l', sizeJ u ≤ (ser u (d + 1)).length) →
            sizeArrJ l' ≤ (serArrItems l' (d + 1)).length := by
          intro l'
          induction l' with
          | nil => intro _; simp [sizeArrJ]
          | cons w ws ihl =>
            intro hl'
            cases ws with
            | nil =>
              rw [serArrItems_single, sizeArrJ_cons]
              have h1 := hl' w (by simp)
              simp only [List.length_append, sizeArrJ]
              omega
            | cons w' ws' =>
              rw [serArrItems_cons₂, sizeArrJ_cons]
              have h1 := hl' w (by simp)
              have h2 := ihl (fun u hu => hl' u (List.mem_cons_of_mem _ hu))
              simp only [List.length_append, List.length_cons]
              omega
        rw [sizeJ_arr, ser_arr_cons]
        have := hlist (v1 :: vs) hmem
        simp only [List.length_cons, List.length_append]
        omega
    | obj l =>
      cases l with
      | nil =>
        rw [show ser (.obj []) d = ['{', '}'] by rw [ser.eq_def]]
        simp [sizeJ, sizeObjJ]
      | cons e1 es =>
        have hmem : ∀ u ∈ e1 :: es, sizeJ u.2 ≤ (ser u.2 (d + 1)).length := by
          intro u hu
          have h1 : sizeJ u.2 ≤ sizeObjJ (e1 :: es) := sizeObjJ_mem u hu
          have h2 : sizeJ (.obj (e1 :: es)) ≤ n := _hsz
          rw [sizeJ_obj] at h2
          exact ih (sizeJ u.2) (by omega) u.2 le_rfl (d + 1)
        have hlist : ∀ (l' : List (String × JVal)),
            (∀ u ∈ l', sizeJ u.2 ≤ (ser u.2 (d + 1)).length) →
            sizeObjJ l' ≤ (serObjItems l' (d + 1)).length := by
          intro l'
          induction l' with
          | nil => intro _; simp [sizeObjJ]
          | cons w ws ihl =>
            obtain ⟨k, v⟩ := w
            intro hl'
            cases ws with
            | nil =>
              rw [serObjItems_single, sizeObjJ_cons]
              have h1 := hl' (k, v) (by simp)
              simp only [List.length_append, List.length_cons, sizeObjJ]
              dsimp only at h1 ⊢
              omega
            | cons w' ws' =>
              rw [serObjItems_cons₂, sizeObjJ_cons]
              have h1 := hl' (k, v) (by simp)
              have h2 := ihl (fun u hu => hl' u (List.mem_cons_of_mem _ hu))
              simp only [List.length_append, List.length_cons]
              dsimp only at h1 ⊢
              omega
        rw [sizeJ_obj, ser_obj_cons]
        have := hlist (e1 :: es) hmem
        simp only [List.length_cons, List.length_append]
        omega

/-- `json.load ∘ json.dump` is the identity on well-keyed documents. -/
lemma jsonLoads_jsonDumps (D : JVal) (hgk : goodKeys D = true) :
    jsonLoads (jsonDumps D) = some D := by
  unfold jsonLoads jsonDumps
  have htl : (String.mk (ser D 0)).toList = ser D 0 := rfl
  rw [htl]
  have hlen : sizeJ D ≤ (ser D 0).length := sizeJ_le_ser_length (sizeJ D) D le_rfl 0
  have hp := serParses_of_size (sizeJ D) D le_rfl hgk ((ser D 0).length + 1) 0 []
    (by omega) trivial
  rw [List.append_nil] at hp
  rw [hp]
  simp [skipWs]

/-- Unfolding equation for `goodKeys` on strings. -/
lemma goodKeys_str (s : String) : goodKeys (.str s) = true := by
  rw [goodKeys.eq_def]

/-- Unfolding equation for `goodKeys` on numbers. -/
lemma goodKeys_num (i : ℤ) : goodKeys (.num i) = true := by
  rw [goodKeys.eq_def]

/-- Unfolding equation for `goodKeysPairs` on the empty member list. -/
lemma goodKeysPairs_nil : goodKeysPairs [] = true := by
  rw [goodKeysPairs.eq_def]

/-- Unfolding equation for `goodKeysPairs` on a member. -/
lemma goodKeysPairs_cons (k : String) (v : JVal) (es : List (String × JVal)) :
    goodKeysPairs ((k, v) :: es) = (goodKeys v && goodKeysPairs es) := by
  rw [goodKeysPairs.eq_def]

/-- A small circuit document for the round-trip witness. -/
def roundTripDoc : JVal :=
  .obj [("format", .str "circuit-json"), ("version", .num 1)]

/-- C4: for every JSON-representable document `D` (every object of `D` has
distinct keys, as any document built from Python dicts does) and every path
`p`, if `save_circuit(p, D)` runs with no I/O fault and returns successfully,
then `load_circuit(p)` afterwards returns exactly `D`: parsing the serialized
form of `D` recovers `D`. -/
theorem save_load_roundtrip (fs : FS) (p : String) (D : JVal)
    (vp : Option (JVal → Bool)) (cb : Bool)
    (hgk : goodKeys D = true)
    (hok : (saveCircuit fs p D vp cb .ok).2 = true) :
    loadCircuit (saveCircuit fs p D vp cb .ok).1 p = some D := by
  have key : ∀ fs1 : FS,
      loadCircuit (atomicWrite fs1 p (jsonDumps D) .ok).1 p = some D := by
    intro fs1
    unfold atomicWrite loadCircuit
    rw [fsGet_fsDel_ne _ (Ne.symm (tmpName_ne p)), fsGet_fsSet_self]
    exact jsonLoads_jsonDumps D hgk
  cases vp with
  | none =>
    unfold saveCircuit
    exact key _
  | some okp =>
    unfold saveCircuit at hok ⊢
    dsimp only at hok ⊢
    by_cases h : okp D = true
    · rw [if_pos h]
      exact key _
    · rw [if_neg h] at hok
      exact absurd hok (by simp)

/-- Witness: saving the concrete document to `"circuit.json"` on an empty
filesystem and loading it back returns the document. -/
theorem save_load_roundtrip_witness :
    goodKeys roundTripDoc = true ∧
    (saveCircuit [] "circuit.json" roundTripDoc none true .ok).2 = true ∧
    loadCircuit (saveCircuit [] "circuit.json" roundTripDoc none true .ok).1
      "circuit.json" = some roundTripDoc :=
  ⟨by rw [show roundTripDoc =
        .obj [("format", .str "circuit-json"), ("version", .num 1)] from rfl,
      goodKeys_obj, goodKeysPairs_cons, goodKeysPairs_cons, goodKeysPairs_nil,
      goodKeys_str, goodKeys_num]; decide,
   rfl,
   save_load_roundtrip [] "circuit.json" roundTripDoc none true
     (by rw [show roundTripDoc =
          .obj [("format", .str "circuit-json"), ("version", .num 1)] from rfl,
        goodKeys_obj, goodKeysPairs_cons, goodKeysPairs_cons, goodKeysPairs_nil,
        goodKeys_str, goodKeys_num]; decide)
     rfl⟩
